import Mathlib

/-!
Shallow embedding of the `DataCleaner` field-reconciliation and normalization
engine of `src/02_etl_pipeline.py` (classes `DataCleaner` and the cleaning
entry points used by `ETLPipeline`), together with proofs settling the frozen
claims about it.

A pandas `DataFrame` is modelled as an ordered column-name list plus row-major
cells (`Df`).  A cell is dynamically typed (`Cell`): the pandas/NumPy missing
sentinels (`None`, `NaN`, `NaT`) are collapsed into the single constructor
`Cell.null`, matching how pandas treats them interchangeably as NA in
`isna`, `fillna`, `map` and `drop_duplicates`.  Python numbers (int/float)
are modelled as one constructor over `ℚ`, mirroring that Python hashes and
compares `1`, `1.0` and `True` as equal where relevant.
-/

namespace ETL

/-- A single dynamically typed cell of a tabular dataset. -/
inductive Cell where
  | null : Cell
  | str (s : String) : Cell
  | num (q : ℚ) : Cell
  | bool (b : Bool) : Cell
  | date (d : Int) : Cell
deriving DecidableEq, Repr

/-- A tabular dataset: ordered column names and row-major cells.  A
well-formed frame has every row of length `cols.length`; the operations
below are total and treat an out-of-range position as absent. -/
structure Df where
  cols : List String
  rows : List (List Cell)
deriving DecidableEq, Repr

/-- Cell of a row at a column position; out of range reads as missing,
matching that a present column always has an in-range position in a
well-formed frame. -/
def cellAt : List Cell → Nat → Cell
  | [], _ => .null
  | c :: _, 0 => c
  | _ :: t, n + 1 => cellAt t n

/-- Write a row position in place; out of range is the identity. -/
def setAt : List Cell → Nat → Cell → List Cell
  | [], _, _ => []
  | _ :: t, 0, v => v :: t
  | c :: t, n + 1, v => c :: setAt t n v

/-- Apply `f` to the cell at position `i` of a row: the row-level effect of a
column assignment `df[name] = f(df[name])`. -/
def mapAt (i : Nat) (f : Cell → Cell) (r : List Cell) : List Cell :=
  setAt r i (f (cellAt r i))

/-- Position of the first occurrence of a column name, if present. -/
def colIdx : List String → String → Option Nat
  | [], _ => none
  | c :: t, name => if c = name then some 0 else (colIdx t name).map (· + 1)

/-- `name in df.columns`. -/
def hasCol (cols : List String) (name : String) : Bool :=
  (colIdx cols name).isSome

/-- `df[name] = f(df[name])` guarded by `if name in df.columns`. -/
def mapCol (df : Df) (name : String) (f : Cell → Cell) : Df :=
  match colIdx df.cols name with
  | some i => { df with rows := df.rows.map (mapAt i f) }
  | none => df

/-- `for field in fields: if field in df.columns: df[field] = f(df[field])`. -/
def mapCols (df : Df) (fields : List String) (f : Cell → Cell) : Df :=
  fields.foldl (fun d fd => mapCol d fd f) df

/-- Row of a dataset by position (empty when out of range). -/
def rowAt (rs : List (List Cell)) (k : Nat) : List Cell :=
  rs.getD k []

/-! ### Scalar parsing (model of the pandas coercers)

`pd.to_numeric(..., errors='coerce')` and `pd.to_datetime(..., errors='coerce')`
are library calls; they are modelled here by executable parsers covering the
representations the datasets use: an optional sign followed by decimal digits
with an optional fractional part for numbers (no currency symbols and no
thousands separators — pandas rejects those too), and ISO `yyyy-mm-dd` for
dates.  Unparseable strings coerce to null, never raising, exactly as
`errors='coerce'` does. -/

/-- ASCII digit test. -/
def isDigitCh (c : Char) : Bool :=
  decide ('0' ≤ c) && decide (c ≤ '9')

/-- Value of a digit string, most significant first. -/
def natOfDigits (l : List Char) : Nat :=
  l.foldl (fun n c => 10 * n + (c.toNat - Char.toNat '0')) 0

/-- Strip an optional leading sign, reporting whether it was a minus. -/
def splitSign (cs : List Char) : Bool × List Char :=
  match cs with
  | c :: t =>
    if c = '-' then (true, t)
    else if c = '+' then (false, t)
    else (false, cs)
  | [] => (false, [])

/-- Negate when the parsed sign was a minus. -/
def applySign (neg : Bool) (q : ℚ) : ℚ :=
  if neg then -q else q

/-- Parse a decimal number: optional sign, digits, optional fractional part.
Mirrors what `pd.to_numeric` accepts on the repository's string data. -/
def parseNum (s : String) : Option ℚ :=
  let signed := splitSign s.data
  let neg := signed.1
  let body := signed.2
  let intPart := body.takeWhile isDigitCh
  let rest := body.dropWhile isDigitCh
  match rest with
  | [] =>
    if intPart.isEmpty then none
    else some (applySign neg (natOfDigits intPart : ℚ))
  | '.' :: frac =>
    if frac.all isDigitCh && !(intPart.isEmpty && frac.isEmpty) then
      some (applySign neg ((natOfDigits intPart : ℚ)
        + (natOfDigits frac : ℚ) / ((10 : ℚ) ^ frac.length)))
    else none
  | _ => none

/-- Split a character list on the dash character. -/
def splitDash (l : List Char) : List (List Char) :=
  l.foldr
    (fun c acc =>
      match acc with
      | [] => if c = '-' then [[], []] else [[c]]
      | g :: gs => if c = '-' then [] :: g :: gs else (c :: g) :: gs)
    [[]]

/-- Value of a nonempty all-digit group. -/
def digitGroup (l : List Char) : Option Nat :=
  if !l.isEmpty && l.all isDigitCh then some (natOfDigits l) else none

/-- Parse an ISO `yyyy-mm-dd` date into an ordinal-comparable code.
Model of the permissive `pd.to_datetime` parser restricted to the ISO form
the repository's date columns use. -/
def parseDate (s : String) : Option Int :=
  match splitDash s.data with
  | [y, m, d] =>
    match digitGroup y, digitGroup m, digitGroup d with
    | some yn, some mn, some dn =>
      if 1 ≤ mn && mn ≤ 12 && 1 ≤ dn && dn ≤ 31 then
        some ((yn : Int) * 10000 + (mn : Int) * 100 + (dn : Int))
      else none
    | _, _, _ => none
  | _ => none

/-- One cell under `pd.to_numeric(col, errors='coerce')`: numbers pass
through, booleans become 0/1, parseable strings become their value, and
everything else (unparseable strings, nulls, timestamps) becomes null. -/
def to_numeric : Cell → Cell
  | .num q => .num q
  | .bool b => .num (if b then 1 else 0)
  | .str s =>
    match parseNum s with
    | some q => .num q
    | none => .null
  | .null => .null
  | .date _ => .null

/-- One cell under `pd.to_datetime(col, errors='coerce')`: timestamps pass
through, parseable strings become timestamps, numbers are read at the
numeric epoch offset (modelled by the integer part), everything else
becomes null (`NaT`). -/
def to_datetime : Cell → Cell
  | .date d => .date d
  | .str s =>
    match parseDate s with
    | some d => .date d
    | none => .null
  | .num q => .date ⌊q⌋
  | .bool _ => .null
  | .null => .null

/-- ASCII lower-casing of one character (the datasets are ASCII). -/
def lowerChar (c : Char) : Char :=
  if decide ('A' ≤ c) && decide (c ≤ 'Z') then Char.ofNat (c.toNat + 32) else c

/-- ASCII lower-casing of a string, model of `str.lower()`. -/
def lowerStr (s : String) : String :=
  ⟨s.data.map lowerChar⟩

/-- Whitespace test for `str.strip()`. -/
def isSpaceCh (c : Char) : Bool :=
  c = ' ' || c = '\t' || c = '\n' || c = '\r'

/-- Model of `str.strip()`. -/
def stripStr (s : String) : String :=
  ⟨((s.data.dropWhile isSpaceCh).reverse.dropWhile isSpaceCh).reverse⟩

/-- One cell under `.str.lower().map(m).fillna(dflt)`: `.str.lower()` turns
every non-string (including null) into NaN, the dictionary lookup is exact
on the lower-cased string, and `fillna` resolves every miss to the declared
default. -/
def normCat (m : List (String × String)) (dflt : String) : Cell → Cell
  | .str s =>
    match List.lookup (lowerStr s) m with
    | some v => .str v
    | none => .str dflt
  | _ => .str dflt

/-- One cell under `.str.lower().str.strip()` (the products `brand` rule):
non-strings become null. -/
def lower_strip : Cell → Cell
  | .str s => .str (stripStr (lowerStr s))
  | _ => .null

/-- One cell under `fillna(v)`. -/
def fillna (v : Cell) : Cell → Cell
  | .null => v
  | c => c

/-- The `is_active` conversion of `_standardize_products_data_types`:
`.map({True: True, False: False, 1: True, 0: False, 'yes': True, 'no': False,
'true': True, 'false': False, '1': True, '0': False}).fillna(False)`.
Python equates `True`/`1`/`1.0` and `False`/`0`/`0.0` as dictionary keys;
any cell outside the key set (null included) falls through the map to NaN
and `fillna(False)` makes it `False`. -/
def coerce_is_active : Cell → Cell
  | .bool b => .bool b
  | .num q => if q = 1 then .bool true else if q = 0 then .bool false else .bool false
  | .str s =>
    if s = "yes" || s = "true" || s = "1" then .bool true
    else if s = "no" || s = "false" || s = "0" then .bool false
    else .bool false
  | _ => .bool false

/-! ### Field Unifier (`_merge_redundant_fields`) -/

/-- Per-row fill used by the priority merge: copy the source cell into the
target cell where the target is missing and the source is not
(`df.loc[mask, target] = df.loc[mask, source]` with
`mask = df[target].isna() & df[source].notna()`). -/
def fillFrom (ti si : Nat) (r : List Cell) : List Cell :=
  if cellAt r ti = .null ∧ cellAt r si ≠ .null then setAt r ti (cellAt r si) else r

/-- `df[target] = df[source]`, appending a new column at the end as pandas
does when the target name is absent. -/
def addColFrom (df : Df) (target source : String) : Df :=
  match colIdx df.cols source with
  | some j => ⟨df.cols ++ [target], df.rows.map (fun r => r ++ [cellAt r j])⟩
  | none => df

/-- One canonical field of `_merge_redundant_fields`: if the target column is
absent, set it from the first present source field and stop; otherwise fill
the target's missing cells from each present source field in declared
order. -/
def mergeOne (df : Df) (target : String) (sources : List String) : Df :=
  if hasCol df.cols target then
    sources.foldl
      (fun d s =>
        if hasCol d.cols s ∧ s ≠ target then
          match colIdx d.cols target, colIdx d.cols s with
          | some ti, some si => { d with rows := d.rows.map (fillFrom ti si) }
          | _, _ => d
        else d)
      df
  else
    match sources.find? (fun s => hasCol df.cols s) with
    | some s => addColFrom df target s
    | none => df

/-- `_merge_redundant_fields(df, field_mappings)`: the Python dict iterates
in insertion order, modelled by a list of pairs. -/
def merge_redundant_fields (mappings : List (String × List String)) (df : Df) : Df :=
  mappings.foldl (fun d m => mergeOne d m.1 m.2) df

/-! ### Type Coercer stage functions -/

/-- `_standardize_customer_data_types`. -/
def standardize_customer_data_types (df : Df) : Df :=
  let df := mapCol df "total_spent" to_numeric
  let df := mapCols df ["total_orders", "loyalty_points", "age"] to_numeric
  mapCols df ["registration_date", "birth_date"] to_datetime

/-- `_standardize_orders_data_types`. -/
def standardize_orders_data_types (df : Df) : Df :=
  let df := mapCols df
    ["quantity", "unit_price", "total_amount", "shipping_cost", "tax", "discount"] to_numeric
  mapCols df ["order_date", "order_datetime"] to_datetime

/-- `_standardize_products_data_types`. -/
def standardize_products_data_types (df : Df) : Df :=
  let df := mapCols df
    ["price", "cost", "weight", "stock_quantity", "reorder_level", "rating"] to_numeric
  let df := mapCol df "is_active" coerce_is_active
  mapCols df ["created_date", "last_updated"] to_datetime

/-- `_standardize_reconciliation_data_types`. -/
def standardize_reconciliation_data_types (df : Df) : Df :=
  let df := mapCols df
    ["amount_paid", "quantity_ordered", "unit_cost", "total_value",
     "discount_applied", "shipping_fee", "tax_amount"] to_numeric
  mapCols df ["transaction_date", "last_modified_timestamp"] to_datetime

/-! ### Categorical Normalizer stage functions -/

/-- Customers `status` synonym map. -/
def customerStatusMap : List (String × String) :=
  [("active", "active"), ("inactive", "inactive"), ("suspended", "suspended"),
   ("act", "active"), ("inact", "inactive"), ("sus", "suspended")]

/-- Customers `gender` synonym map. -/
def genderMap : List (String × String) :=
  [("male", "male"), ("female", "female"), ("other", "other"),
   ("m", "male"), ("f", "female"), ("o", "other")]

/-- Customers `segment` synonym map. -/
def segmentMap : List (String × String) :=
  [("regular", "regular"), ("vip", "vip"), ("new", "new"),
   ("reg", "regular"), ("premium", "vip")]

/-- Orders `status` synonym map. -/
def orderStatusMap : List (String × String) :=
  [("pending", "pending"), ("processing", "processing"), ("shipped", "shipped"),
   ("delivered", "delivered"), ("cancelled", "cancelled"), ("returned", "returned"),
   ("pend", "pending"), ("proc", "processing"), ("ship", "shipped"),
   ("deliv", "delivered"), ("cancel", "cancelled"), ("ret", "returned")]

/-- Orders `payment_method` synonym map. -/
def paymentMethodMap : List (String × String) :=
  [("credit_card", "credit_card"), ("debit_card", "debit_card"), ("paypal", "paypal"),
   ("bank_transfer", "bank_transfer"), ("cash", "cash"),
   ("credit", "credit_card"), ("debit", "debit_card"), ("transfer", "bank_transfer")]

/-- Products `category` synonym map. -/
def categoryMap : List (String × String) :=
  [("electronics", "electronics"), ("clothing", "clothing"), ("books", "books"),
   ("sports", "sports"), ("toys", "toys"), ("home", "home"),
   ("elec", "electronics"), ("cloth", "clothing"), ("book", "books"),
   ("sport", "sports"), ("toy", "toys")]

/-- Reconciliation `payment_status` synonym map. -/
def paymentStatusMap : List (String × String) :=
  [("completed", "completed"), ("pending", "pending"), ("failed", "failed"),
   ("complete", "completed"), ("pend", "pending"), ("fail", "failed")]

/-- Reconciliation `delivery_status` synonym map. -/
def deliveryStatusMap : List (String × String) :=
  [("pending", "pending"), ("in_transit", "in_transit"), ("delivered", "delivered"),
   ("pend", "pending"), ("transit", "in_transit"), ("deliv", "delivered")]

/-- `_normalize_customer_categoricals`. -/
def normalize_customer_categoricals (df : Df) : Df :=
  let df := mapCol df "status" (normCat customerStatusMap "inactive")
  let df := mapCol df "gender" (normCat genderMap "other")
  mapCol df "segment" (normCat segmentMap "regular")

/-- `_normalize_orders_categoricals`. -/
def normalize_orders_categoricals (df : Df) : Df :=
  let df := mapCol df "status" (normCat orderStatusMap "pending")
  mapCol df "payment_method" (normCat paymentMethodMap "credit_card")

/-- `_normalize_products_categoricals`. -/
def normalize_products_categoricals (df : Df) : Df :=
  let df := mapCol df "category" (normCat categoryMap "other")
  mapCol df "brand" lower_strip

/-- `_normalize_reconciliation_categoricals`. -/
def normalize_reconciliation_categoricals (df : Df) : Df :=
  let df := mapCol df "payment_status" (normCat paymentStatusMap "pending")
  mapCol df "delivery_status" (normCat deliveryStatusMap "pending")

/-! ### Missing-Value Resolver stage functions -/

/-- The fixed null-token set replaced by true null in every object column. -/
def nullVariants : List String :=
  ["null", "NULL", "N/A", "NA", "", "nan", "NaN"]

/-- One cell under `replace(null_variants, None)`: only a matching string
cell changes (non-object columns cannot contain these strings, so applying
this to every cell coincides with the source's per-object-column loop). -/
def replaceNullVariantCell : Cell → Cell
  | .str s => if nullVariants.contains s then .null else .str s
  | c => c

/-- The `for col in df.columns: ... replace(null_variants, None)` prologue
shared by all four `_handle_*_missing_values` methods. -/
def replaceNullVariants (df : Df) : Df :=
  { df with rows := df.rows.map (fun r => r.map replaceNullVariantCell) }

/-- Insert into a sorted list of rationals. -/
def insertQ (x : ℚ) : List ℚ → List ℚ
  | [] => [x]
  | y :: ys => if x ≤ y then x :: y :: ys else y :: insertQ x ys

/-- Insertion sort on rationals. -/
def sortQ : List ℚ → List ℚ
  | [] => []
  | x :: xs => insertQ x (sortQ xs)

/-- `Series.median()` with NaN skipped: none when no numeric value exists,
the middle element for odd counts, the mean of the two middle elements for
even counts. -/
def median (l : List ℚ) : Option ℚ :=
  let s := sortQ l
  let n := l.length
  if n = 0 then none
  else if n % 2 = 1 then some (s.getD (n / 2) 0)
  else some ((s.getD (n / 2 - 1) 0 + s.getD (n / 2) 0) / 2)

/-- The numeric values of a column (NaN and non-numeric cells skipped, as
`Series.median` skips them on the post-coercion data). -/
def colNums (df : Df) (i : Nat) : List ℚ :=
  df.rows.filterMap (fun r =>
    match cellAt r i with
    | .num q => some q
    | _ => none)

/-- `_handle_customer_missing_values`: null-variant replacement, then the
age median imputation gated by the `18 <= median <= 80` sanity bound. -/
def handle_customer_missing_values (df : Df) : Df :=
  let df := replaceNullVariants df
  match colIdx df.cols "age" with
  | some i =>
    match median (colNums df i) with
    | some m =>
      if 18 ≤ m ∧ m ≤ 80 then { df with rows := df.rows.map (mapAt i (fillna (.num m))) }
      else df
    | none => df
  | none => df

/-- `_handle_orders_missing_values`: null-variant replacement, then
`quantity.fillna(1)`. -/
def handle_orders_missing_values (df : Df) : Df :=
  let df := replaceNullVariants df
  mapCol df "quantity" (fillna (.num 1))

/-- `_handle_products_missing_values`: null-variant replacement, then
`stock_quantity.fillna(0)` and `is_active.fillna(True)`. -/
def handle_products_missing_values (df : Df) : Df :=
  let df := replaceNullVariants df
  let df := mapCol df "stock_quantity" (fillna (.num 0))
  mapCol df "is_active" (fillna (.bool true))

/-- `_handle_reconciliation_missing_values`: null-variant replacement only. -/
def handle_reconciliation_missing_values (df : Df) : Df :=
  replaceNullVariants df

/-! ### Duplicate Collapser stage functions

`drop_duplicates` keeps the first occurrence and treats the NA sentinels as
equal to each other, which the single `Cell.null` value models directly. -/

/-- First-occurrence filter over whole rows, given the already-seen rows. -/
def dedupFirst (seen : List (List Cell)) : List (List Cell) → List (List Cell)
  | [] => []
  | r :: rs =>
    if r ∈ seen then dedupFirst seen rs
    else r :: dedupFirst (r :: seen) rs

/-- First-occurrence filter keyed by the cell at column position `i`
(`drop_duplicates(subset=[name], keep='first')`). -/
def dedupByKey (i : Nat) (seen : List Cell) : List (List Cell) → List (List Cell)
  | [] => []
  | r :: rs =>
    if cellAt r i ∈ seen then dedupByKey i seen rs
    else r :: dedupByKey i (cellAt r i :: seen) rs

/-- `df.drop_duplicates()`. -/
def drop_duplicates (df : Df) : Df :=
  { df with rows := dedupFirst [] df.rows }

/-- `if name in df.columns: df = df.drop_duplicates(subset=[name], keep='first')`. -/
def dropDuplicatesBy (df : Df) (name : String) : Df :=
  match colIdx df.cols name with
  | some i => { df with rows := dedupByKey i [] df.rows }
  | none => df

/-- `_remove_customer_duplicates`: exact rows, then `email`, then
`customer_id`. -/
def remove_customer_duplicates (df : Df) : Df :=
  let df := drop_duplicates df
  let df := dropDuplicatesBy df "email"
  dropDuplicatesBy df "customer_id"

/-- `_remove_orders_duplicates`: exact rows, then `order_id`. -/
def remove_orders_duplicates (df : Df) : Df :=
  let df := drop_duplicates df
  dropDuplicatesBy df "order_id"

/-- `_remove_products_duplicates`: exact rows, then `product_id`. -/
def remove_products_duplicates (df : Df) : Df :=
  let df := drop_duplicates df
  dropDuplicatesBy df "product_id"

/-- `_remove_reconciliation_duplicates`: exact rows only. -/
def remove_reconciliation_duplicates (df : Df) : Df :=
  drop_duplicates df

/-! ### Entity pipelines -/

/-- The customers synonym declaration of `clean_customers_data`. -/
def customerFieldMappings : List (String × List String) :=
  [("email", ["email", "email_address"]),
   ("phone", ["phone", "phone_number"]),
   ("customer_id", ["customer_id", "cust_id"]),
   ("full_name", ["full_name", "customer_name"]),
   ("zip_code", ["zip_code", "postal_code"]),
   ("registration_date", ["registration_date", "reg_date"]),
   ("status", ["status", "customer_status"])]

/-- The orders synonym declaration of `clean_orders_data`. -/
def orderFieldMappings : List (String × List String) :=
  [("order_id", ["order_id", "ord_id"]),
   ("customer_id", ["customer_id", "cust_id"]),
   ("product_id", ["product_id", "item_id"]),
   ("quantity", ["quantity", "qty"]),
   ("unit_price", ["unit_price", "price"]),
   ("total_amount", ["total_amount", "order_total"]),
   ("status", ["status", "order_status"])]

/-- The products synonym declaration of `clean_products_data`. -/
def productFieldMappings : List (String × List String) :=
  [("product_id", ["product_id", "item_id"]),
   ("product_name", ["product_name", "item_name"]),
   ("category", ["category", "product_category"]),
   ("brand", ["brand", "manufacturer"]),
   ("price", ["price", "list_price"]),
   ("stock_quantity", ["stock_quantity", "stock_level"])]

/-- `clean_customers_data` (the `df.copy()` is a value copy; the heap-level
aliasing behavior is modelled separately by the `*Prog` store programs). -/
def clean_customers_data (df : Df) : Df :=
  let cleaned := merge_redundant_fields customerFieldMappings df
  let cleaned := standardize_customer_data_types cleaned
  let cleaned := normalize_customer_categoricals cleaned
  let cleaned := handle_customer_missing_values cleaned
  remove_customer_duplicates cleaned

/-- `clean_orders_data`. -/
def clean_orders_data (df : Df) : Df :=
  let cleaned := merge_redundant_fields orderFieldMappings df
  let cleaned := standardize_orders_data_types cleaned
  let cleaned := normalize_orders_categoricals cleaned
  let cleaned := handle_orders_missing_values cleaned
  remove_orders_duplicates cleaned

/-- `clean_products_data`. -/
def clean_products_data (df : Df) : Df :=
  let cleaned := merge_redundant_fields productFieldMappings df
  let cleaned := standardize_products_data_types cleaned
  let cleaned := normalize_products_categoricals cleaned
  let cleaned := handle_products_missing_values cleaned
  remove_products_duplicates cleaned

/-- `clean_reconciliation_data` (the source declares no synonym groups for
this entity, so no merge call appears). -/
def clean_reconciliation_data (df : Df) : Df :=
  let cleaned := standardize_reconciliation_data_types df
  let cleaned := normalize_reconciliation_categoricals cleaned
  let cleaned := handle_reconciliation_missing_values cleaned
  remove_reconciliation_duplicates cleaned

/-! ### Basic lemmas about the row and column primitives -/

theorem length_setAt (r : List Cell) (i : Nat) (v : Cell) :
    (setAt r i v).length = r.length := by
  induction r generalizing i with
  | nil => rfl
  | cons c t ih =>
    cases i with
    | zero => rfl
    | succ n => simpa [setAt] using ih n

theorem setAt_oob (r : List Cell) (i : Nat) (v : Cell) (h : r.length ≤ i) :
    setAt r i v = r := by
  induction r generalizing i with
  | nil => rfl
  | cons c t ih =>
    cases i with
    | zero => simp at h
    | succ n =>
      simp only [setAt, List.cons.injEq, true_and]
      exact ih n (Nat.le_of_succ_le_succ h)

theorem cellAt_oob (r : List Cell) (i : Nat) (h : r.length ≤ i) :
    cellAt r i = .null := by
  induction r generalizing i with
  | nil => rfl
  | cons c t ih =>
    cases i with
    | zero => simp at h
    | succ n => exact ih n (Nat.le_of_succ_le_succ h)

theorem cellAt_setAt_self (r : List Cell) (i : Nat) (v : Cell) (h : i < r.length) :
    cellAt (setAt r i v) i = v := by
  induction r generalizing i with
  | nil => simp at h
  | cons c t ih =>
    cases i with
    | zero => rfl
    | succ n => exact ih n (Nat.lt_of_succ_lt_succ h)

theorem cellAt_setAt_ne (r : List Cell) (i j : Nat) (v : Cell) (h : i ≠ j) :
    cellAt (setAt r i v) j = cellAt r j := by
  induction r generalizing i j with
  | nil => rfl
  | cons c t ih =>
    cases i with
    | zero =>
      cases j with
      | zero => exact absurd rfl h
      | succ m => rfl
    | succ n =>
      cases j with
      | zero => rfl
      | succ m => exact ih n m (fun hnm => h (by rw [hnm]))

theorem setAt_cellAt_self (r : List Cell) (i : Nat) :
    setAt r i (cellAt r i) = r := by
  induction r generalizing i with
  | nil => rfl
  | cons c t ih =>
    cases i with
    | zero => rfl
    | succ n =>
      simp only [setAt, cellAt, List.cons.injEq, true_and]
      exact ih n

theorem cellAt_map (f : Cell → Cell) (r : List Cell) (i : Nat) (hf : f .null = .null) :
    cellAt (r.map f) i = f (cellAt r i) := by
  induction r generalizing i with
  | nil => simp [cellAt, hf]
  | cons c t ih =>
    cases i with
    | zero => rfl
    | succ n => exact ih n

theorem length_mapAt (i : Nat) (f : Cell → Cell) (r : List Cell) :
    (mapAt i f r).length = r.length :=
  length_setAt r i _

theorem mapAt_id (i : Nat) (f : Cell → Cell) (r : List Cell)
    (h : f (cellAt r i) = cellAt r i) : mapAt i f r = r := by
  rw [mapAt, h, setAt_cellAt_self]

theorem cellAt_mapAt_ne (i j : Nat) (f : Cell → Cell) (r : List Cell) (h : i ≠ j) :
    cellAt (mapAt i f r) j = cellAt r j :=
  cellAt_setAt_ne r i j _ h

theorem cellAt_mapAt_lt (i : Nat) (f : Cell → Cell) (r : List Cell) (h : i < r.length) :
    cellAt (mapAt i f r) i = f (cellAt r i) :=
  cellAt_setAt_self r i _ h

theorem cellAt_mapAt_self (i : Nat) (f : Cell → Cell) (r : List Cell)
    (hf : f .null = .null) : cellAt (mapAt i f r) i = f (cellAt r i) := by
  rcases Nat.lt_or_ge i r.length with h | h
  · exact cellAt_mapAt_lt i f r h
  · rw [mapAt, setAt_oob _ _ _ h, cellAt_oob _ _ h]
    exact hf.symm

theorem colIdx_lt_length (cols : List String) (n : String) (i : Nat)
    (h : colIdx cols n = some i) : i < cols.length := by
  induction cols generalizing i with
  | nil => simp [colIdx] at h
  | cons c t ih =>
    by_cases hc : c = n
    · simp only [colIdx, if_pos hc] at h
      obtain rfl : (0 : Nat) = i := Option.some.inj h
      simp
    · cases hcolt : colIdx t n with
      | none => simp [colIdx, if_neg hc, hcolt] at h
      | some j =>
        simp only [colIdx, if_neg hc, hcolt, Option.map_some] at h
        obtain rfl : j + 1 = i := Option.some.inj h
        simpa using ih j hcolt

theorem colIdx_getD (cols : List String) (n : String) (i : Nat)
    (h : colIdx cols n = some i) : cols.getD i "" = n := by
  induction cols generalizing i with
  | nil => simp [colIdx] at h
  | cons c t ih =>
    by_cases hc : c = n
    · simp only [colIdx, if_pos hc] at h
      obtain rfl : (0 : Nat) = i := Option.some.inj h
      simpa using hc
    · cases hcolt : colIdx t n with
      | none => simp [colIdx, if_neg hc, hcolt] at h
      | some j =>
        simp only [colIdx, if_neg hc, hcolt, Option.map_some] at h
        obtain rfl : j + 1 = i := Option.some.inj h
        simpa using ih j hcolt

theorem colIdx_inj (cols : List String) (n m : String) (i : Nat)
    (hn : colIdx cols n = some i) (hm : colIdx cols m = some i) : n = m := by
  rw [← colIdx_getD cols n i hn, colIdx_getD cols m i hm]

theorem colIdx_ne_of_name_ne (cols : List String) (n m : String) (i j : Nat)
    (hn : colIdx cols n = some i) (hm : colIdx cols m = some j) (h : n ≠ m) : i ≠ j := by
  intro hij
  exact h (colIdx_inj cols n m i hn (hij ▸ hm))

theorem hasCol_iff (cols : List String) (n : String) :
    hasCol cols n = true ↔ ∃ i, colIdx cols n = some i := by
  rw [hasCol, Option.isSome_iff_exists]

/-! ### Column-predicate lemmas -/

/-- Every cell of the column called `name` (when present) satisfies `P`. -/
def colSat (df : Df) (name : String) (P : Cell → Prop) : Prop :=
  ∀ i, colIdx df.cols name = some i → ∀ r ∈ df.rows, P (cellAt r i)

theorem mapCol_cols (df : Df) (n : String) (f : Cell → Cell) :
    (mapCol df n f).cols = df.cols := by
  cases h : colIdx df.cols n <;> simp [mapCol, h]

theorem mapCols_cols (df : Df) (fields : List String) (f : Cell → Cell) :
    (mapCols df fields f).cols = df.cols := by
  induction fields generalizing df with
  | nil => rfl
  | cons fd rest ih =>
    show (mapCols (mapCol df fd f) rest f).cols = df.cols
    rw [ih, mapCol_cols]

theorem colSat_mapCol_self (df : Df) (n : String) (f : Cell → Cell) (P : Cell → Prop)
    (hf : ∀ c, P (f c)) (hnull : P .null) : colSat (mapCol df n f) n P := by
  intro i hi r hr
  rw [mapCol_cols] at hi
  rw [mapCol, hi] at hr
  simp only [List.mem_map] at hr
  obtain ⟨r0, _, rfl⟩ := hr
  rcases Nat.lt_or_ge i r0.length with h | h
  · rw [cellAt_mapAt_lt i f r0 h]; exact hf _
  · rw [mapAt, setAt_oob _ _ _ h, cellAt_oob _ _ h]; exact hnull

theorem colSat_mapCol_ne (df : Df) (n m : String) (f : Cell → Cell) (P : Cell → Prop)
    (hnm : n ≠ m) (h : colSat df m P) : colSat (mapCol df n f) m P := by
  intro i hi r hr
  rw [mapCol_cols] at hi
  cases hn : colIdx df.cols n with
  | none => rw [mapCol, hn] at hr; exact h i hi r hr
  | some j =>
    rw [mapCol, hn] at hr
    simp only [List.mem_map] at hr
    obtain ⟨r0, hr0, rfl⟩ := hr
    rw [cellAt_mapAt_ne j i f r0 (colIdx_ne_of_name_ne df.cols n m j i hn hi hnm)]
    exact h i hi r0 hr0

theorem colSat_mapCol_pres (df : Df) (n m : String) (f : Cell → Cell) (P : Cell → Prop)
    (hfP : ∀ c, P c → P (f c)) (h : colSat df m P) : colSat (mapCol df n f) m P := by
  intro i hi r hr
  rw [mapCol_cols] at hi
  cases hn : colIdx df.cols n with
  | none => rw [mapCol, hn] at hr; exact h i hi r hr
  | some j =>
    rw [mapCol, hn] at hr
    simp only [List.mem_map] at hr
    obtain ⟨r0, hr0, rfl⟩ := hr
    by_cases hij : j = i
    · subst hij
      rcases Nat.lt_or_ge j r0.length with hlt | hge
      · rw [cellAt_mapAt_lt j f r0 hlt]; exact hfP _ (h j hi r0 hr0)
      · rw [mapAt, setAt_oob _ _ _ hge]; exact h j hi r0 hr0
    · rw [cellAt_mapAt_ne j i f r0 hij]; exact h i hi r0 hr0

theorem colSat_mapCols_ne (df : Df) (fields : List String) (m : String) (f : Cell → Cell)
    (P : Cell → Prop) (hm : m ∉ fields) (h : colSat df m P) :
    colSat (mapCols df fields f) m P := by
  induction fields generalizing df with
  | nil => exact h
  | cons fd rest ih =>
    show colSat (mapCols (mapCol df fd f) rest f) m P
    exact ih _ (fun hmem => hm (List.mem_cons_of_mem _ hmem))
      (colSat_mapCol_ne df fd m f P (fun he => hm (he ▸ List.mem_cons_self _ _)) h)

theorem colSat_mapCols_pres (df : Df) (fields : List String) (m : String) (f : Cell → Cell)
    (P : Cell → Prop) (hfP : ∀ c, P c → P (f c)) (h : colSat df m P) :
    colSat (mapCols df fields f) m P := by
  induction fields generalizing df with
  | nil => exact h
  | cons fd rest ih =>
    show colSat (mapCols (mapCol df fd f) rest f) m P
    exact ih _ (colSat_mapCol_pres df fd m f P hfP h)

theorem colSat_mapCols_self (df : Df) (fields : List String) (n : String) (f : Cell → Cell)
    (P : Cell → Prop) (hn : n ∈ fields) (hf : ∀ c, P (f c)) (hnull : P .null) :
    colSat (mapCols df fields f) n P := by
  induction fields generalizing df with
  | nil => simp at hn
  | cons fd rest ih =>
    show colSat (mapCols (mapCol df fd f) rest f) n P
    by_cases hmem : n ∈ rest
    · exact ih _ hmem
    · have hfd : fd = n := by
        rcases List.mem_cons.1 hn with he | hmem2
        · exact he.symm
        · exact absurd hmem2 hmem
      subst hfd
      exact colSat_mapCols_ne _ rest fd f P hmem (colSat_mapCol_self df fd f P hf hnull)

theorem replaceNullVariants_cols (df : Df) : (replaceNullVariants df).cols = df.cols := rfl

theorem colSat_replace_pres (df : Df) (m : String) (P : Cell → Prop)
    (hfP : ∀ c, P c → P (replaceNullVariantCell c)) (h : colSat df m P) :
    colSat (replaceNullVariants df) m P := by
  intro i hi r hr
  simp only [replaceNullVariants, List.mem_map] at hr
  obtain ⟨r0, hr0, rfl⟩ := hr
  rw [cellAt_map replaceNullVariantCell r0 i rfl]
  exact hfP _ (h i hi r0 hr0)

/-! ### Duplicate-collapser lemmas -/

theorem dedupFirst_sublist (seen : List (List Cell)) (l : List (List Cell)) :
    List.Sublist (dedupFirst seen l) l := by
  induction l generalizing seen with
  | nil => exact List.Sublist.refl _
  | cons r rs ih =>
    by_cases hc : r ∈ seen
    · rw [dedupFirst, if_pos hc]; exact (ih seen).cons r
    · rw [dedupFirst, if_neg hc]; exact (ih (r :: seen)).cons₂ r

theorem dedupByKey_sublist (i : Nat) (seen : List Cell) (l : List (List Cell)) :
    List.Sublist (dedupByKey i seen l) l := by
  induction l generalizing seen with
  | nil => exact List.Sublist.refl _
  | cons r rs ih =>
    by_cases hc : cellAt r i ∈ seen
    · rw [dedupByKey, if_pos hc]; exact (ih seen).cons r
    · rw [dedupByKey, if_neg hc]; exact (ih (cellAt r i :: seen)).cons₂ r

theorem dedupFirst_spec (seen : List (List Cell)) (l : List (List Cell)) :
    (∀ x ∈ dedupFirst seen l, x ∉ seen) ∧ (dedupFirst seen l).Nodup := by
  induction l generalizing seen with
  | nil => simp [dedupFirst]
  | cons r rs ih =>
    by_cases hc : r ∈ seen
    · rw [dedupFirst, if_pos hc]; exact ih seen
    · rw [dedupFirst, if_neg hc]
      refine ⟨?_, ?_⟩
      · intro x hx
        rcases List.mem_cons.1 hx with rfl | hx2
        · exact hc
        · intro hxs
          exact (ih (r :: seen)).1 x hx2 (List.mem_cons_of_mem _ hxs)
      · refine List.Pairwise.cons ?_ (ih (r :: seen)).2
        intro y hy heq
        exact (ih (r :: seen)).1 y hy (heq ▸ List.mem_cons_self _ _)

theorem dedupByKey_spec (i : Nat) (seen : List Cell) (l : List (List Cell)) :
    (∀ x ∈ dedupByKey i seen l, cellAt x i ∉ seen) ∧
      (dedupByKey i seen l).Pairwise (fun r1 r2 => cellAt r1 i ≠ cellAt r2 i) := by
  induction l generalizing seen with
  | nil => simp [dedupByKey]
  | cons r rs ih =>
    by_cases hc : cellAt r i ∈ seen
    · rw [dedupByKey, if_pos hc]; exact ih seen
    · rw [dedupByKey, if_neg hc]
      refine ⟨?_, ?_⟩
      · intro x hx
        rcases List.mem_cons.1 hx with rfl | hx2
        · exact hc
        · intro hxs
          exact (ih (cellAt r i :: seen)).1 x hx2 (List.mem_cons_of_mem _ hxs)
      · refine List.Pairwise.cons ?_ (ih (cellAt r i :: seen)).2
        intro y hy heq
        exact (ih (cellAt r i :: seen)).1 y hy (heq ▸ List.mem_cons_self _ _)

theorem dedupFirst_eq_self (seen : List (List Cell)) (l : List (List Cell))
    (hn : l.Nodup) (hs : ∀ x ∈ l, x ∉ seen) : dedupFirst seen l = l := by
  induction l generalizing seen with
  | nil => rfl
  | cons r rs ih =>
    rw [dedupFirst, if_neg (hs r (List.mem_cons_self _ _))]
    rw [ih (r :: seen) (List.Nodup.of_cons hn)]
    intro x hx
    rcases List.mem_cons.1 (List.mem_cons_self r rs) with _ | _
    all_goals
      intro hmem
      rcases List.mem_cons.1 hmem with rfl | hxs
      · exact (List.nodup_cons.1 hn).1 hx
      · exact hs x (List.mem_cons_of_mem _ hx) hxs

/-! ### Field-Unifier lemmas -/

theorem setAt_setAt (r : List Cell) (i : Nat) (v w : Cell) :
    setAt (setAt r i v) i w = setAt r i w := by
  induction r generalizing i with
  | nil => rfl
  | cons c t ih =>
    cases i with
    | zero => rfl
    | succ n =>
      simp only [setAt, List.cons.injEq, true_and]
      exact ih n

/-- First non-null cell of a list, null when there is none. -/
def firstNonNull : List Cell → Cell
  | [] => .null
  | c :: cs => if c = .null then firstNonNull cs else c

/-- The synonym columns that participate in the fill loop of `mergeOne` for a
present target: those present in the frame and distinct from the target. -/
def presentSources (cols : List String) (target : String) (sources : List String) :
    List String :=
  sources.filter (fun s => hasCol cols s && decide (s ≠ target))

/-- Cell of a row at a named column (null when the column is absent). -/
def cellAtCol (cols : List String) (name : String) (r : List Cell) : Cell :=
  match colIdx cols name with
  | some i => cellAt r i
  | none => .null

theorem firstNonNull_single (c : Cell) : firstNonNull [c] = c := by
  by_cases h : c = .null
  · simp [firstNonNull, h]
  · simp [firstNonNull, h]

theorem map_eq_self_of {α : Type} (l : List α) (f : α → α) (h : ∀ x ∈ l, f x = x) :
    l.map f = l := by
  induction l with
  | nil => rfl
  | cons x xs ih =>
    rw [List.map_cons, h x (List.mem_cons_self _ _),
      ih (fun y hy => h y (List.mem_cons_of_mem _ hy))]

theorem map_congr_mem {α β : Type} (l : List α) (f g : α → β) (h : ∀ x ∈ l, f x = g x) :
    l.map f = l.map g := by
  induction l with
  | nil => rfl
  | cons x xs ih =>
    rw [List.map_cons, List.map_cons, h x (List.mem_cons_self _ _),
      ih (fun y hy => h y (List.mem_cons_of_mem _ hy))]

/-- The fold of `mergeOne` over the synonym list, for a present target,
rewrites each row's target cell to the first non-null value among the
original target cell followed by the present synonym cells, in declared
order (so a later synonym never overwrites an already-filled target). -/
theorem mergeOne_fold_spec (target : String) (sources : List String) (d : Df) (ti : Nat)
    (hti : colIdx d.cols target = some ti) :
    (sources.foldl
        (fun d s =>
          if hasCol d.cols s ∧ s ≠ target then
            match colIdx d.cols target, colIdx d.cols s with
            | some ti, some si => { d with rows := d.rows.map (fillFrom ti si) }
            | _, _ => d
          else d)
        d)
      = { d with rows := d.rows.map (fun r =>
            setAt r ti (firstNonNull (cellAt r ti ::
              (presentSources d.cols target sources).map (fun s => cellAtCol d.cols s r)))) } := by
  induction sources generalizing d with
  | nil =>
    cases d with
    | mk cols rows =>
      simp only [List.foldl_nil, presentSources, List.filter_nil, List.map_nil,
        firstNonNull_single, Df.mk.injEq, true_and]
      exact (map_eq_self_of rows _ (fun r _ => setAt_cellAt_self r ti)).symm
  | cons s ss ih =>
    simp only [List.foldl_cons]
    by_cases hcond : hasCol d.cols s ∧ s ≠ target
    · obtain ⟨si, hsi⟩ := (hasCol_iff d.cols s).1 hcond.1
      have hstep :
          (if hasCol d.cols s ∧ s ≠ target then
            match colIdx d.cols target, colIdx d.cols s with
            | some ti, some si => { d with rows := d.rows.map (fillFrom ti si) }
            | _, _ => d
          else d) = { d with rows := d.rows.map (fillFrom ti si) } := by
        rw [if_pos hcond, hti, hsi]
      rw [hstep, ih { d with rows := d.rows.map (fillFrom ti si) } hti]
      have hsine : si ≠ ti :=
        colIdx_ne_of_name_ne d.cols s target si ti hsi hti hcond.2
      have hps : presentSources d.cols target (s :: ss)
          = s :: presentSources d.cols target ss := by
        simp [presentSources, List.filter_cons, hcond.1, hcond.2]
      simp only [Df.mk.injEq, true_and, List.map_map]
      rw [hps]
      apply map_congr_mem
      intro r _
      simp only [Function.comp_apply, List.map_cons]
      have hfill : fillFrom ti si r
          = if cellAt r ti = .null ∧ cellAt r si ≠ .null
            then setAt r ti (cellAt r si) else r := rfl
      have hcolsame :
          (presentSources d.cols target ss).map (fun x => cellAtCol d.cols x (fillFrom ti si r))
            = (presentSources d.cols target ss).map (fun x => cellAtCol d.cols x r) := by
        apply map_congr_mem
        intro x hx
        have hxp := List.of_mem_filter hx
        simp only [Bool.and_eq_true, decide_eq_true_eq] at hxp
        obtain ⟨xi, hxi⟩ := (hasCol_iff d.cols x).1 hxp.1
        have hxine : xi ≠ ti :=
          colIdx_ne_of_name_ne d.cols x target xi ti hxi hti hxp.2
        have hx1 : cellAtCol d.cols x (fillFrom ti si r) = cellAt (fillFrom ti si r) xi := by
          simp [cellAtCol, hxi]
        have hx2 : cellAtCol d.cols x r = cellAt r xi := by
          simp [cellAtCol, hxi]
        rw [hx1, hx2, hfill]
        by_cases hc : cellAt r ti = .null ∧ cellAt r si ≠ .null
        · rw [if_pos hc]
          exact cellAt_setAt_ne r ti xi _ (fun h => hxine h.symm)
        · rw [if_neg hc]
      rw [hcolsame]
      have hscol : cellAtCol d.cols s r = cellAt r si := by
        simp [cellAtCol, hsi]
      rw [hscol]
      rcases Nat.lt_or_ge ti r.length with hlt | hge
      · by_cases hc : cellAt r ti = .null ∧ cellAt r si ≠ .null
        · rw [hfill, if_pos hc, cellAt_setAt_self r ti _ hlt, setAt_setAt]
          have h1 : firstNonNull (cellAt r ti :: cellAt r si ::
              (presentSources d.cols target ss).map (fun x => cellAtCol d.cols x r))
              = firstNonNull (cellAt r si ::
                (presentSources d.cols target ss).map (fun x => cellAtCol d.cols x r)) := by
            rw [firstNonNull, if_pos hc.1]
          rw [h1]
        · rw [hfill, if_neg hc]
          rcases Classical.em (cellAt r ti = .null) with hn | hn
          · have hsn : cellAt r si = .null := by
              by_contra hne
              exact hc ⟨hn, hne⟩
            have h1 : firstNonNull (cellAt r ti :: cellAt r si ::
                (presentSources d.cols target ss).map (fun x => cellAtCol d.cols x r))
                = firstNonNull ((presentSources d.cols target ss).map
                    (fun x => cellAtCol d.cols x r)) := by
              rw [firstNonNull, if_pos hn, firstNonNull, if_pos hsn]
            have h2 : firstNonNull (cellAt r ti ::
                (presentSources d.cols target ss).map (fun x => cellAtCol d.cols x r))
                = firstNonNull ((presentSources d.cols target ss).map
                    (fun x => cellAtCol d.cols x r)) := by
              rw [firstNonNull, if_pos hn]
            rw [h1, h2]
          · have h1 : firstNonNull (cellAt r ti :: cellAt r si ::
                (presentSources d.cols target ss).map (fun x => cellAtCol d.cols x r))
                = cellAt r ti := by
              rw [firstNonNull, if_neg hn]
            have h2 : firstNonNull (cellAt r ti ::
                (presentSources d.cols target ss).map (fun x => cellAtCol d.cols x r))
                = cellAt r ti := by
              rw [firstNonNull, if_neg hn]
            rw [h1, h2]
      · have hAr : fillFrom ti si r = r := by
          rw [hfill]
          by_cases hc : cellAt r ti = .null ∧ cellAt r si ≠ .null
          · rw [if_pos hc, setAt_oob r ti _ hge]
          · rw [if_neg hc]
        rw [hAr, setAt_oob r ti _ hge, setAt_oob r ti _ hge]
    · have hstep :
          (if hasCol d.cols s ∧ s ≠ target then
            match colIdx d.cols target, colIdx d.cols s with
            | some ti, some si => { d with rows := d.rows.map (fillFrom ti si) }
            | _, _ => d
          else d) = d := if_neg hcond
      have hfalse : (hasCol d.cols s && decide (s ≠ target)) = false := by
        cases hb : (hasCol d.cols s && decide (s ≠ target)) with
        | false => rfl
        | true =>
          simp only [Bool.and_eq_true, decide_eq_true_eq] at hb
          exact absurd hb hcond
      have hps : presentSources d.cols target (s :: ss)
          = presentSources d.cols target ss := by
        show List.filter (fun x => hasCol d.cols x && decide (x ≠ target)) (s :: ss)
            = List.filter (fun x => hasCol d.cols x && decide (x ≠ target)) ss
        rw [List.filter_cons, hfalse]
        simp
      rw [hstep, ih d hti, hps]

/-! ### Cell-shape predicates -/

/-- The cell is a number or null (the shape the Type Coercer guarantees for
numeric fields). -/
def isNumOrNull : Cell → Bool
  | .num _ => true
  | .null => true
  | _ => false

/-- The cell is a boolean. -/
def isBool : Cell → Bool
  | .bool _ => true
  | _ => false

theorem isNumOrNull_to_numeric (c : Cell) : isNumOrNull (to_numeric c) = true := by
  cases c with
  | null => rfl
  | str s => cases h : parseNum s <;> simp [to_numeric, h, isNumOrNull]
  | num q => rfl
  | bool b => rfl
  | date d => rfl

theorem isBool_coerce_is_active (c : Cell) : isBool (coerce_is_active c) = true := by
  cases c with
  | null => rfl
  | str s =>
    simp only [coerce_is_active]
    split_ifs <;> rfl
  | num q =>
    simp only [coerce_is_active]
    split_ifs <;> rfl
  | bool b => rfl
  | date d => rfl

/-! ### Rectangular frames -/

/-- Every row has exactly one cell per column; pandas frames are always
rectangular, so the entity pipelines only ever see such frames. -/
def Rect (df : Df) : Prop :=
  ∀ r ∈ df.rows, r.length = df.cols.length

theorem rect_mapCol (df : Df) (n : String) (f : Cell → Cell) (hw : Rect df) :
    Rect (mapCol df n f) := by
  intro r hr
  rw [mapCol_cols]
  cases h : colIdx df.cols n with
  | none => rw [mapCol, h] at hr; exact hw r hr
  | some i =>
    rw [mapCol, h] at hr
    simp only [List.mem_map] at hr
    obtain ⟨r0, hr0, rfl⟩ := hr
    rw [length_mapAt]
    exact hw r0 hr0

theorem rect_mapCols (df : Df) (fields : List String) (f : Cell → Cell) (hw : Rect df) :
    Rect (mapCols df fields f) := by
  induction fields generalizing df with
  | nil => exact hw
  | cons fd rest ih =>
    show Rect (mapCols (mapCol df fd f) rest f)
    exact ih _ (rect_mapCol df fd f hw)

theorem colSat_mapCol_self_rect (df : Df) (n : String) (f : Cell → Cell) (P : Cell → Prop)
    (hw : Rect df) (hf : ∀ c, P (f c)) : colSat (mapCol df n f) n P := by
  intro i hi r hr
  rw [mapCol_cols] at hi
  rw [mapCol, hi] at hr
  simp only [List.mem_map] at hr
  obtain ⟨r0, hr0, rfl⟩ := hr
  have hlen : i < r0.length := by
    rw [hw r0 hr0]
    exact colIdx_lt_length df.cols n i hi
  rw [cellAt_mapAt_lt i f r0 hlen]
  exact hf _

/-! ### Claim C1 -/

/-- C1, counterexample.  The claim asserts that a cell holding the
currency-formatted string `"$1,234.56"` is coerced to the number `1234.56`;
on the code (`pd.to_numeric(..., errors='coerce')`, which accepts neither
currency symbols nor thousands separators) the cell is coerced to null
instead. -/
theorem c1_counterexample :
    (standardize_orders_data_types ⟨["unit_price"], [[Cell.str "$1,234.56"]]⟩).rows
        = [[Cell.null]]
      ∧ Cell.null ≠ Cell.num (1234.56 : ℚ) :=
  ⟨by decide, by decide⟩

/-- C1 as amended: for every declared numeric field of the orders and
customers coercers, after the Type Coercer every cell of that field is a
number or null (the coercion is total and never raises); a currency-formatted
string such as `"$1,234.56"` is coerced to null exactly like the non-numeric
string `"abc"`; and any string the numeric parser accepts is coerced to the
very same cell as the corresponding native number, so stringified integers
and native numbers coincide after coercion. -/
theorem c1_numeric_coercion :
    (∀ (df : Df) (f : String),
        f ∈ (["quantity", "unit_price", "total_amount", "shipping_cost", "tax",
              "discount"] : List String) →
        ∀ i, colIdx (standardize_orders_data_types df).cols f = some i →
        ∀ r ∈ (standardize_orders_data_types df).rows, isNumOrNull (cellAt r i) = true)
  ∧ (∀ (df : Df) (f : String),
        f ∈ (["total_spent", "total_orders", "loyalty_points", "age"] : List String) →
        ∀ i, colIdx (standardize_customer_data_types df).cols f = some i →
        ∀ r ∈ (standardize_customer_data_types df).rows, isNumOrNull (cellAt r i) = true)
  ∧ to_numeric (.str "$1,234.56") = .null
  ∧ to_numeric (.str "abc") = .null
  ∧ (∀ s q, parseNum s = some q → to_numeric (.str s) = to_numeric (.num q)) := by
  refine ⟨?_, ?_, by decide, by decide, ?_⟩
  · intro df f hf i hi r hr
    have hnd : f ∉ (["order_date", "order_datetime"] : List String) := by
      fin_cases hf <;> decide
    have hcs : colSat (standardize_orders_data_types df) f (fun c => isNumOrNull c = true) := by
      show colSat (mapCols (mapCols df
        ["quantity", "unit_price", "total_amount", "shipping_cost", "tax", "discount"]
        to_numeric) ["order_date", "order_datetime"] to_datetime) f _
      exact colSat_mapCols_ne _ _ _ _ _ hnd
        (colSat_mapCols_self _ _ _ _ _ hf (fun c => isNumOrNull_to_numeric c) rfl)
    exact hcs i hi r hr
  · intro df f hf i hi r hr
    have hnd : f ∉ (["registration_date", "birth_date"] : List String) := by
      fin_cases hf <;> decide
    have hcs : colSat (standardize_customer_data_types df) f
        (fun c => isNumOrNull c = true) := by
      show colSat (mapCols (mapCols (mapCol df "total_spent" to_numeric)
        ["total_orders", "loyalty_points", "age"] to_numeric)
        ["registration_date", "birth_date"] to_datetime) f _
      refine colSat_mapCols_ne _ _ _ _ _ hnd ?_
      by_cases hf3 : f ∈ (["total_orders", "loyalty_points", "age"] : List String)
      · exact colSat_mapCols_self _ _ _ _ _ hf3 (fun c => isNumOrNull_to_numeric c) rfl
      · have hts : f = "total_spent" := by
          fin_cases hf <;> first | rfl | (exact absurd (by decide) hf3)
        subst hts
        exact colSat_mapCols_ne _ _ _ _ _ hf3
          (colSat_mapCol_self _ _ _ _ (fun c => isNumOrNull_to_numeric c) rfl)
    exact hcs i hi r hr
  · intro s q h
    simp [to_numeric, h]

/-- C1 witness: the amended theorem applied to a one-column orders frame. -/
theorem c1_witness :
    ("quantity" ∈ (["quantity", "unit_price", "total_amount", "shipping_cost", "tax",
        "discount"] : List String))
      ∧ colIdx (standardize_orders_data_types
          ⟨["quantity"], [[Cell.num 7]]⟩).cols "quantity" = some 0
      ∧ [Cell.num 7] ∈ (standardize_orders_data_types ⟨["quantity"], [[Cell.num 7]]⟩).rows
      ∧ isNumOrNull (cellAt [Cell.num 7] 0) = true :=
  ⟨by decide, by decide, by decide,
    c1_numeric_coercion.1 ⟨["quantity"], [[Cell.num 7]]⟩ "quantity" (by decide) 0
      (by decide) [Cell.num 7] (by decide)⟩

/-! ### Claim C6 -/

/-- C6, counterexample.  The claim asserts the boolean literal set is matched
case-insensitively; the code's dictionary holds only the lower-case
literals, so the cell `"YES"` falls through the map and is defaulted to
`False` rather than mapped to `True`. -/
theorem c6_counterexample :
    (standardize_products_data_types ⟨["is_active"], [[Cell.str "YES"]]⟩).rows
        = [[Cell.bool false]]
      ∧ Cell.bool false ≠ Cell.bool true :=
  ⟨by decide, by decide⟩

/-- C6 as amended: the `is_active` coercion maps native booleans, the numbers
1/0 and exactly the lower-case strings `"true"/"false"`, `"yes"/"no"`,
`"1"/"0"` (case-sensitively) to the corresponding boolean, and every other
cell — null, differently-cased variants, unrecognized strings — to the fixed
fallback `False`, never to null; consequently after the products Type
Coercer every `is_active` cell is a boolean. -/
theorem c6_is_active_coercion :
    (∀ (df : Df), Rect df →
        ∀ i, colIdx (standardize_products_data_types df).cols "is_active" = some i →
        ∀ r ∈ (standardize_products_data_types df).rows, isBool (cellAt r i) = true)
  ∧ coerce_is_active (.bool true) = .bool true
  ∧ coerce_is_active (.bool false) = .bool false
  ∧ coerce_is_active (.num 1) = .bool true
  ∧ coerce_is_active (.num 0) = .bool false
  ∧ coerce_is_active (.str "yes") = .bool true
  ∧ coerce_is_active (.str "no") = .bool false
  ∧ coerce_is_active (.str "true") = .bool true
  ∧ coerce_is_active (.str "false") = .bool false
  ∧ coerce_is_active (.str "1") = .bool true
  ∧ coerce_is_active (.str "0") = .bool false
  ∧ coerce_is_active .null = .bool false
  ∧ coerce_is_active (.str "YES") = .bool false
  ∧ coerce_is_active (.str "True") = .bool false
  ∧ coerce_is_active (.str "maybe") = .bool false := by
  refine ⟨?_, by decide, by decide, by decide, by decide, by decide, by decide, by decide,
    by decide, by decide, by decide, by decide, by decide, by decide, by decide⟩
  intro df hw i hi r hr
  have hcs : colSat (standardize_products_data_types df) "is_active"
      (fun c => isBool c = true) := by
    show colSat (mapCols (mapCol (mapCols df
      ["price", "cost", "weight", "stock_quantity", "reorder_level", "rating"] to_numeric)
      "is_active" coerce_is_active) ["created_date", "last_updated"] to_datetime)
      "is_active" _
    exact colSat_mapCols_ne _ _ _ _ _ (by decide)
      (colSat_mapCol_self_rect _ _ _ _ (rect_mapCols df _ _ hw)
        (fun c => isBool_coerce_is_active c))
  exact hcs i hi r hr

/-- C6 witness: the amended theorem applied to a one-column products frame
holding a null `is_active` cell. -/
theorem c6_witness :
    Rect ⟨["is_active"], [[Cell.null]]⟩
      ∧ colIdx (standardize_products_data_types ⟨["is_active"], [[Cell.null]]⟩).cols
        "is_active" = some 0
      ∧ [Cell.bool false] ∈ (standardize_products_data_types
          ⟨["is_active"], [[Cell.null]]⟩).rows
      ∧ isBool (cellAt [Cell.bool false] 0) = true :=
  ⟨by intro r hr; fin_cases hr; rfl, by decide, by decide,
    c6_is_active_coercion.1 ⟨["is_active"], [[Cell.null]]⟩
      (by intro r hr; fin_cases hr; rfl) 0 (by decide)
      [Cell.bool false] (by decide)⟩

/-! ### Claim C3 -/

theorem lookup_mem_values {m : List (String × String)} {k v : String}
    (h : List.lookup k m = some v) : v ∈ m.map Prod.snd := by
  induction m with
  | nil => simp [List.lookup] at h
  | cons p t ih =>
    cases p with
    | mk a b =>
      simp only [List.lookup] at h
      split at h
      · simp only [List.map_cons, List.mem_cons]
        exact Or.inl (Option.some.inj h).symm
      · exact List.mem_cons_of_mem _ (ih h)

/-- The categorical normalizer always lands in a given vocabulary as soon as
all map values and the default do. -/
theorem normCat_mem (m : List (String × String)) (dflt : String) (vocab : List Cell)
    (hvals : ∀ v ∈ m.map Prod.snd, Cell.str v ∈ vocab) (hd : Cell.str dflt ∈ vocab)
    (c : Cell) : normCat m dflt c ∈ vocab := by
  cases c with
  | str s =>
    cases h : List.lookup (lowerStr s) m with
    | none => simpa [normCat, h] using hd
    | some v =>
      have := hvals v (lookup_mem_values h)
      simpa [normCat, h] using this
  | null => exact hd
  | num q => exact hd
  | bool b => exact hd
  | date d => exact hd

/-- C3: for every declared categorical field of the customers and orders
normalizers, every cell after normalization is non-null and belongs to the
field's canonical vocabulary (the map's values together with the declared
default); lookup is exact on the lower-cased string — a null cell, an
unrecognized value, and even a strict substring of a canonical value such as
`"activ"` all resolve to the declared default, while an upper-cased synonym
such as `"ACT"` is lower-cased and mapped. -/
theorem c3_categorical_normalizer :
    (∀ df : Df, Rect df →
      (∀ i, colIdx (normalize_customer_categoricals df).cols "status" = some i →
        ∀ r ∈ (normalize_customer_categoricals df).rows,
          cellAt r i ∈ ([.str "active", .str "inactive", .str "suspended"] : List Cell))
      ∧ (∀ i, colIdx (normalize_customer_categoricals df).cols "gender" = some i →
        ∀ r ∈ (normalize_customer_categoricals df).rows,
          cellAt r i ∈ ([.str "male", .str "female", .str "other"] : List Cell))
      ∧ (∀ i, colIdx (normalize_customer_categoricals df).cols "segment" = some i →
        ∀ r ∈ (normalize_customer_categoricals df).rows,
          cellAt r i ∈ ([.str "regular", .str "vip", .str "new"] : List Cell)))
  ∧ (∀ df : Df, Rect df →
      (∀ i, colIdx (normalize_orders_categoricals df).cols "status" = some i →
        ∀ r ∈ (normalize_orders_categoricals df).rows,
          cellAt r i ∈ ([.str "pending", .str "processing", .str "shipped",
            .str "delivered", .str "cancelled", .str "returned"] : List Cell))
      ∧ (∀ i, colIdx (normalize_orders_categoricals df).cols "payment_method" = some i →
        ∀ r ∈ (normalize_orders_categoricals df).rows,
          cellAt r i ∈ ([.str "credit_card", .str "debit_card", .str "paypal",
            .str "bank_transfer", .str "cash"] : List Cell)))
  ∧ normCat customerStatusMap "inactive" .null = .str "inactive"
  ∧ normCat customerStatusMap "inactive" (.str "unknown") = .str "inactive"
  ∧ normCat customerStatusMap "inactive" (.str "activ") = .str "inactive"
  ∧ normCat customerStatusMap "inactive" (.str "ACT") = .str "active"
  ∧ normCat orderStatusMap "pending" .null = .str "pending"
  ∧ normCat paymentMethodMap "credit_card" (.str "bitcoin") = .str "credit_card" := by
  refine ⟨?_, ?_, by decide, by decide, by decide, by decide, by decide, by decide⟩
  · intro df hw
    refine ⟨?_, ?_, ?_⟩
    · intro i hi r hr
      have hcs : colSat (normalize_customer_categoricals df) "status"
          (fun c => c ∈ ([.str "active", .str "inactive", .str "suspended"] : List Cell)) := by
        show colSat (mapCol (mapCol (mapCol df "status" (normCat customerStatusMap "inactive"))
          "gender" (normCat genderMap "other")) "segment" (normCat segmentMap "regular"))
          "status" _
        exact colSat_mapCol_ne _ _ _ _ _ (by decide)
          (colSat_mapCol_ne _ _ _ _ _ (by decide)
            (colSat_mapCol_self_rect _ _ _ _ hw
              (normCat_mem _ _ _ (by decide) (by decide))))
      exact hcs i hi r hr
    · intro i hi r hr
      have hcs : colSat (normalize_customer_categoricals df) "gender"
          (fun c => c ∈ ([.str "male", .str "female", .str "other"] : List Cell)) := by
        show colSat (mapCol (mapCol (mapCol df "status" (normCat customerStatusMap "inactive"))
          "gender" (normCat genderMap "other")) "segment" (normCat segmentMap "regular"))
          "gender" _
        exact colSat_mapCol_ne _ _ _ _ _ (by decide)
          (colSat_mapCol_self_rect _ _ _ _ (rect_mapCol _ _ _ hw)
            (normCat_mem _ _ _ (by decide) (by decide)))
      exact hcs i hi r hr
    · intro i hi r hr
      have hcs : colSat (normalize_customer_categoricals df) "segment"
          (fun c => c ∈ ([.str "regular", .str "vip", .str "new"] : List Cell)) := by
        show colSat (mapCol (mapCol (mapCol df "status" (normCat customerStatusMap "inactive"))
          "gender" (normCat genderMap "other")) "segment" (normCat segmentMap "regular"))
          "segment" _
        exact colSat_mapCol_self_rect _ _ _ _ (rect_mapCol _ _ _ (rect_mapCol _ _ _ hw))
          (normCat_mem _ _ _ (by decide) (by decide))
      exact hcs i hi r hr
  · intro df hw
    refine ⟨?_, ?_⟩
    · intro i hi r hr
      have hcs : colSat (normalize_orders_categoricals df) "status"
          (fun c => c ∈ ([.str "pending", .str "processing", .str "shipped",
            .str "delivered", .str "cancelled", .str "returned"] : List Cell)) := by
        show colSat (mapCol (mapCol df "status" (normCat orderStatusMap "pending"))
          "payment_method" (normCat paymentMethodMap "credit_card")) "status" _
        exact colSat_mapCol_ne _ _ _ _ _ (by decide)
          (colSat_mapCol_self_rect _ _ _ _ hw
            (normCat_mem _ _ _ (by decide) (by decide)))
      exact hcs i hi r hr
    · intro i hi r hr
      have hcs : colSat (normalize_orders_categoricals df) "payment_method"
          (fun c => c ∈ ([.str "credit_card", .str "debit_card", .str "paypal",
            .str "bank_transfer", .str "cash"] : List Cell)) := by
        show colSat (mapCol (mapCol df "status" (normCat orderStatusMap "pending"))
          "payment_method" (normCat paymentMethodMap "credit_card")) "payment_method" _
        exact colSat_mapCol_self_rect _ _ _ _ (rect_mapCol _ _ _ hw)
          (normCat_mem _ _ _ (by decide) (by decide))
      exact hcs i hi r hr

/-- C3 witness: the theorem applied to a one-column customers frame holding a
null and an unrecognized status. -/
theorem c3_witness :
    Rect ⟨["status"], [[Cell.null], [Cell.str "ACT"]]⟩
      ∧ colIdx (normalize_customer_categoricals
          ⟨["status"], [[Cell.null], [Cell.str "ACT"]]⟩).cols "status" = some 0
      ∧ [Cell.str "inactive"] ∈ (normalize_customer_categoricals
          ⟨["status"], [[Cell.null], [Cell.str "ACT"]]⟩).rows
      ∧ cellAt [Cell.str "inactive"] 0
          ∈ ([.str "active", .str "inactive", .str "suspended"] : List Cell) :=
  ⟨by intro r hr; fin_cases hr <;> rfl, by decide, by decide,
    ((c3_categorical_normalizer.1 ⟨["status"], [[Cell.null], [Cell.str "ACT"]]⟩
      (by intro r hr; fin_cases hr <;> rfl)).1 0 (by decide)
      [Cell.str "inactive"] (by decide))⟩

/-! ### Claim C2 -/

theorem drop_duplicates_cols (df : Df) : (drop_duplicates df).cols = df.cols := rfl

theorem dropDuplicatesBy_cols (df : Df) (n : String) :
    (dropDuplicatesBy df n).cols = df.cols := by
  cases h : colIdx df.cols n <;> simp [dropDuplicatesBy, h]

/-- C2, counterexample.  The claim asserts that two rows both holding a null
email are both retained; pandas `drop_duplicates(subset=['email'])` treats
the NA sentinels as equal to each other, so the second null-email row is
dropped and only one row survives instead of two. -/
theorem c2_counterexample :
    (remove_customer_duplicates ⟨["email", "full_name"],
        [[Cell.null, Cell.str "x"], [Cell.null, Cell.str "y"]]⟩).rows
      = [[Cell.null, Cell.str "x"]]
      ∧ ([[Cell.null, Cell.str "x"]] : List (List Cell))
        ≠ [[Cell.null, Cell.str "x"], [Cell.null, Cell.str "y"]] :=
  ⟨by decide, by decide⟩

/-- C2 as amended: the Duplicate Collapser keeps a subsequence of the input
rows (first occurrences, original order, rows unmodified); after it, no two
surviving rows share the same `email` value and no two share the same
`customer_id` value, where null counts as a value — nulls compare equal, so
among rows with a null email only the first survives.  Concretely: of two
rows sharing an email and differing elsewhere exactly the first survives,
and of two rows both with null email exactly the first survives. -/
theorem c2_duplicate_collapser :
    (∀ df : Df, List.Sublist (remove_customer_duplicates df).rows df.rows)
  ∧ (∀ df : Df, ∀ i, colIdx (remove_customer_duplicates df).cols "email" = some i →
      (remove_customer_duplicates df).rows.Pairwise
        (fun r1 r2 => cellAt r1 i ≠ cellAt r2 i))
  ∧ (∀ df : Df, ∀ i, colIdx (remove_customer_duplicates df).cols "customer_id" = some i →
      (remove_customer_duplicates df).rows.Pairwise
        (fun r1 r2 => cellAt r1 i ≠ cellAt r2 i))
  ∧ (remove_customer_duplicates ⟨["email", "full_name"],
      [[Cell.str "a@b.c", Cell.str "x"], [Cell.str "a@b.c", Cell.str "y"]]⟩).rows
      = [[Cell.str "a@b.c", Cell.str "x"]]
  ∧ (remove_customer_duplicates ⟨["email", "full_name"],
      [[Cell.null, Cell.str "x"], [Cell.null, Cell.str "y"]]⟩).rows
      = [[Cell.null, Cell.str "x"]] := by
  refine ⟨?_, ?_, ?_, by decide, by decide⟩
  · intro df
    show List.Sublist (dropDuplicatesBy (dropDuplicatesBy (drop_duplicates df) "email")
      "customer_id").rows df.rows
    have h1 : List.Sublist (drop_duplicates df).rows df.rows := dedupFirst_sublist [] _
    have h2 : List.Sublist (dropDuplicatesBy (drop_duplicates df) "email").rows
        (drop_duplicates df).rows := by
      cases h : colIdx (drop_duplicates df).cols "email" with
      | none => rw [dropDuplicatesBy, h]
      | some i => rw [dropDuplicatesBy, h]; exact dedupByKey_sublist i [] _
    have h3 : List.Sublist (dropDuplicatesBy (dropDuplicatesBy (drop_duplicates df) "email")
        "customer_id").rows (dropDuplicatesBy (drop_duplicates df) "email").rows := by
      cases h : colIdx (dropDuplicatesBy (drop_duplicates df) "email").cols "customer_id" with
      | none => rw [dropDuplicatesBy, h]
      | some i => rw [dropDuplicatesBy, h]; exact dedupByKey_sublist i [] _
    exact (h3.trans h2).trans h1
  · intro df i hi
    have hcols : (remove_customer_duplicates df).cols = df.cols := by
      show (dropDuplicatesBy (dropDuplicatesBy (drop_duplicates df) "email")
        "customer_id").cols = df.cols
      rw [dropDuplicatesBy_cols, dropDuplicatesBy_cols, drop_duplicates_cols]
    rw [hcols] at hi
    have hie : colIdx (drop_duplicates df).cols "email" = some i := hi
    have h2 : (dropDuplicatesBy (drop_duplicates df) "email").rows
        = dedupByKey i [] (drop_duplicates df).rows := by
      rw [dropDuplicatesBy, hie]
    have hp2 : (dropDuplicatesBy (drop_duplicates df) "email").rows.Pairwise
        (fun r1 r2 => cellAt r1 i ≠ cellAt r2 i) := by
      rw [h2]; exact (dedupByKey_spec i [] _).2
    show (dropDuplicatesBy (dropDuplicatesBy (drop_duplicates df) "email")
      "customer_id").rows.Pairwise _
    cases h : colIdx (dropDuplicatesBy (drop_duplicates df) "email").cols "customer_id" with
    | none => rw [dropDuplicatesBy, h]; exact hp2
    | some j =>
      rw [dropDuplicatesBy, h]
      exact hp2.sublist (dedupByKey_sublist j [] _)
  · intro df i hi
    have hicd : colIdx (dropDuplicatesBy (drop_duplicates df) "email").cols
        "customer_id" = some i := by
      have hcols : (remove_customer_duplicates df).cols = df.cols := by
        show (dropDuplicatesBy (dropDuplicatesBy (drop_duplicates df) "email")
          "customer_id").cols = df.cols
        rw [dropDuplicatesBy_cols, dropDuplicatesBy_cols, drop_duplicates_cols]
      rw [hcols] at hi
      rw [dropDuplicatesBy_cols, drop_duplicates_cols]
      exact hi
    show (dropDuplicatesBy (dropDuplicatesBy (drop_duplicates df) "email")
      "customer_id").rows.Pairwise _
    rw [dropDuplicatesBy, hicd]
    exact (dedupByKey_spec i [] _).2

/-- C2 witness: the amended theorem applied to a two-row frame with distinct
emails (both rows survive and their email cells differ pairwise). -/
theorem c2_witness :
    colIdx (remove_customer_duplicates ⟨["email"],
        [[Cell.str "a"], [Cell.str "b"]]⟩).cols "email" = some 0
      ∧ (remove_customer_duplicates ⟨["email"],
          [[Cell.str "a"], [Cell.str "b"]]⟩).rows.Pairwise
          (fun r1 r2 => cellAt r1 0 ≠ cellAt r2 0) :=
  ⟨by decide,
    c2_duplicate_collapser.2.1 ⟨["email"], [[Cell.str "a"], [Cell.str "b"]]⟩ 0 (by decide)⟩

/-! ### Claim C4 -/

/-- C4: contract of the Field Unifier for one canonical field.  When the
canonical column is absent it is appended as a copy of the first present
synonym column (in declared order), and the frame is untouched when no
synonym is present; when the canonical column is present, each row's
canonical cell becomes the first non-null value among the original canonical
cell followed by the present synonym cells in declared order — so null
canonical cells are filled row-by-row from synonym cells, and a later
synonym never overwrites a canonical cell already filled originally or by an
earlier synonym. -/
theorem c4_field_unifier (df : Df) (target : String) (sources : List String) :
    ((∀ s, hasCol df.cols target = false →
        sources.find? (fun x => hasCol df.cols x) = some s →
        ∃ j, colIdx df.cols s = some j ∧
          mergeOne df target sources
            = ⟨df.cols ++ [target], df.rows.map (fun r => r ++ [cellAt r j])⟩)
      ∧ (hasCol df.cols target = false →
          sources.find? (fun x => hasCol df.cols x) = none →
          mergeOne df target sources = df))
  ∧ (∀ ti, colIdx df.cols target = some ti →
      mergeOne df target sources
        = { df with rows := df.rows.map (fun r =>
            setAt r ti (firstNonNull (cellAt r ti ::
              (presentSources df.cols target sources).map
                (fun s => cellAtCol df.cols s r)))) }) := by
  refine ⟨⟨?_, ?_⟩, ?_⟩
  · intro s htabs hfind
    have hs : hasCol df.cols s = true := by
      simpa using List.find?_some hfind
    obtain ⟨j, hj⟩ := (hasCol_iff df.cols s).1 hs
    refine ⟨j, hj, ?_⟩
    rw [mergeOne, if_neg (by simp [htabs]), hfind]
    simp only [addColFrom, hj]
  · intro htabs hfind
    rw [mergeOne, if_neg (by simp [htabs]), hfind]
  · intro ti hti
    have ht : hasCol df.cols target = true := (hasCol_iff _ _).2 ⟨ti, hti⟩
    rw [mergeOne, if_pos ht]
    exact mergeOne_fold_spec target sources df ti hti

/-- C4 witness: the present-target branch applied to a two-column orders
frame where the null canonical `unit_price` cell is filled from `price`. -/
theorem c4_witness :
    colIdx (["unit_price", "price"] : List String) "unit_price" = some 0
      ∧ mergeOne ⟨["unit_price", "price"], [[Cell.null, Cell.num 3]]⟩ "unit_price"
          ["unit_price", "price"]
        = ⟨["unit_price", "price"], [[Cell.num 3, Cell.num 3]]⟩ :=
  ⟨by decide,
    ((c4_field_unifier ⟨["unit_price", "price"], [[Cell.null, Cell.num 3]]⟩
      "unit_price" ["unit_price", "price"]).2 0 (by decide)).trans (by decide)⟩

/-! ### Claim C5 -/

/-- The numeric content of a cell (`NaN`-skipping view used by `median`). -/
def numOf : Cell → Option ℚ
  | .num q => some q
  | _ => none

theorem numOf_replaceNullVariantCell (c : Cell) :
    numOf (replaceNullVariantCell c) = numOf c := by
  cases c with
  | str s =>
    simp only [replaceNullVariantCell]
    split_ifs <;> rfl
  | null => rfl
  | num q => rfl
  | bool b => rfl
  | date d => rfl

theorem replaceNullVariantCell_of_numOrNull (c : Cell) (h : isNumOrNull c = true) :
    replaceNullVariantCell c = c := by
  cases c with
  | str s => simp [isNumOrNull] at h
  | null => rfl
  | num q => rfl
  | bool b => rfl
  | date d => rfl

theorem colNums_replaceNullVariants (df : Df) (i : Nat) :
    colNums (replaceNullVariants df) i = colNums df i := by
  show List.filterMap _ (df.rows.map (fun r => r.map replaceNullVariantCell))
      = List.filterMap _ df.rows
  rw [List.filterMap_map]
  apply congrFun
  apply congrArg
  funext r
  show numOf (cellAt (r.map replaceNullVariantCell) i) = numOf (cellAt r i)
  rw [cellAt_map replaceNullVariantCell r i rfl, numOf_replaceNullVariantCell]

theorem rowAt_map (f : List Cell → List Cell) (rs : List (List Cell)) (k : Nat)
    (h : k < rs.length) : rowAt (rs.map f) k = f (rowAt rs k) := by
  induction rs generalizing k with
  | nil => simp at h
  | cons r t ih =>
    cases k with
    | zero => rfl
    | succ n => exact ih n (Nat.lt_of_succ_lt_succ h)

theorem rowAt_mem (rs : List (List Cell)) (k : Nat) (h : k < rs.length) :
    rowAt rs k ∈ rs := by
  induction rs generalizing k with
  | nil => simp at h
  | cons r t ih =>
    cases k with
    | zero => exact List.mem_cons_self _ _
    | succ n => exact List.mem_cons_of_mem _ (ih n (Nat.lt_of_succ_lt_succ h))

theorem length_rows_replaceNullVariants (df : Df) :
    (replaceNullVariants df).rows.length = df.rows.length := by
  show (df.rows.map _).length = _
  rw [List.length_map]

theorem rect_replaceNullVariants (df : Df) (hw : Rect df) :
    Rect (replaceNullVariants df) := by
  intro r hr
  simp only [replaceNullVariants, List.mem_map] at hr
  obtain ⟨r0, hr0, rfl⟩ := hr
  rw [List.length_map]
  exact hw r0 hr0

/-- C5: with an `age` column of numbers-or-nulls (its post-coercion shape),
the Missing-Value Resolver computes the median of the non-null age values;
when that median exists and lies within the inclusive sanity bound
`[18, 80]`, every null age cell is filled with it and every non-null age
cell is kept; when the median is out of bound or undefined, every age cell
— null or not — is left exactly as it was.  Row count is preserved. -/
theorem c5_age_median_imputation (df : Df) (i : Nat) (hw : Rect df)
    (hi : colIdx df.cols "age" = some i)
    (hcells : ∀ r ∈ df.rows, isNumOrNull (cellAt r i) = true) :
    (handle_customer_missing_values df).rows.length = df.rows.length
  ∧ (∀ m, median (colNums df i) = some m → 18 ≤ m → m ≤ 80 →
      ∀ k, k < df.rows.length →
        cellAt (rowAt (handle_customer_missing_values df).rows k) i
          = fillna (.num m) (cellAt (rowAt df.rows k) i))
  ∧ (∀ m, median (colNums df i) = some m → ¬(18 ≤ m ∧ m ≤ 80) →
      ∀ k, k < df.rows.length →
        cellAt (rowAt (handle_customer_missing_values df).rows k) i
          = cellAt (rowAt df.rows k) i)
  ∧ (median (colNums df i) = none →
      ∀ k, k < df.rows.length →
        cellAt (rowAt (handle_customer_missing_values df).rows k) i
          = cellAt (rowAt df.rows k) i) := by
  have hcolsrepl : (replaceNullVariants df).cols = df.cols := rfl
  have hirepl : colIdx (replaceNullVariants df).cols "age" = some i := hi
  have hmed : median (colNums (replaceNullVariants df) i) = median (colNums df i) := by
    rw [colNums_replaceNullVariants]
  have hreplcell : ∀ k, k < df.rows.length →
      cellAt (rowAt (replaceNullVariants df).rows k) i = cellAt (rowAt df.rows k) i := by
    intro k hk
    show cellAt (rowAt (df.rows.map (fun r => r.map replaceNullVariantCell)) k) i = _
    rw [rowAt_map _ _ _ hk, cellAt_map replaceNullVariantCell _ i rfl]
    exact replaceNullVariantCell_of_numOrNull _ (hcells _ (rowAt_mem df.rows k hk))
  have hlenrepl := length_rows_replaceNullVariants df
  refine ⟨?_, ?_, ?_, ?_⟩
  · cases hm : median (colNums (replaceNullVariants df) i) with
    | none =>
      have hout : handle_customer_missing_values df = replaceNullVariants df := by
        simp only [handle_customer_missing_values, hirepl, hm]
      rw [hout, hlenrepl]
    | some m =>
      by_cases hb : 18 ≤ m ∧ m ≤ 80
      · have hout : handle_customer_missing_values df
            = { replaceNullVariants df with
                rows := (replaceNullVariants df).rows.map (mapAt i (fillna (.num m))) } := by
          simp only [handle_customer_missing_values, hirepl, hm]
          rw [if_pos hb]
        rw [hout]
        show ((replaceNullVariants df).rows.map _).length = _
        rw [List.length_map, hlenrepl]
      · have hout : handle_customer_missing_values df = replaceNullVariants df := by
          simp only [handle_customer_missing_values, hirepl, hm]
          rw [if_neg hb]
        rw [hout, hlenrepl]
  · intro m hm h18 h80 k hk
    have hm2 : median (colNums (replaceNullVariants df) i) = some m := by
      rw [hmed, hm]
    have hout : handle_customer_missing_values df
        = { replaceNullVariants df with
            rows := (replaceNullVariants df).rows.map (mapAt i (fillna (.num m))) } := by
      simp only [handle_customer_missing_values, hirepl, hm2]
      rw [if_pos (And.intro h18 h80)]
    rw [hout]
    have hk2 : k < (replaceNullVariants df).rows.length := by
      rw [hlenrepl]; exact hk
    show cellAt (rowAt ((replaceNullVariants df).rows.map (mapAt i (fillna (.num m)))) k) i = _
    rw [rowAt_map _ _ _ hk2]
    have hilen : i < (rowAt (replaceNullVariants df).rows k).length := by
      rw [rect_replaceNullVariants df hw _ (rowAt_mem _ k hk2), hcolsrepl]
      exact colIdx_lt_length df.cols "age" i hi
    rw [cellAt_mapAt_lt i _ _ hilen, hreplcell k hk]
  · intro m hm hb k hk
    have hm2 : median (colNums (replaceNullVariants df) i) = some m := by
      rw [hmed, hm]
    have hout : handle_customer_missing_values df = replaceNullVariants df := by
      simp only [handle_customer_missing_values, hirepl, hm2]
      rw [if_neg hb]
    rw [hout]
    exact hreplcell k hk
  · intro hm k hk
    have hm2 : median (colNums (replaceNullVariants df) i) = none := by
      rw [hmed, hm]
    have hout : handle_customer_missing_values df = replaceNullVariants df := by
      simp only [handle_customer_missing_values, hirepl, hm2]
    rw [hout]
    exact hreplcell k hk

/-- C5 witness: the spec's own example — ages `[25, null, 30, 1000]` have
median 30 (within `[18, 80]`), so the null is filled with 30 and the other
cells are kept. -/
theorem c5_witness :
    Rect ⟨["age"], [[Cell.num 25], [Cell.null], [Cell.num 30], [Cell.num 1000]]⟩
      ∧ colIdx (["age"] : List String) "age" = some 0
      ∧ median (colNums ⟨["age"],
          [[Cell.num 25], [Cell.null], [Cell.num 30], [Cell.num 1000]]⟩ 0) = some 30
      ∧ (18 : ℚ) ≤ 30 ∧ (30 : ℚ) ≤ 80
      ∧ cellAt (rowAt (handle_customer_missing_values ⟨["age"],
          [[Cell.num 25], [Cell.null], [Cell.num 30], [Cell.num 1000]]⟩).rows 1) 0
          = fillna (.num 30) (cellAt (rowAt ([[Cell.num 25], [Cell.null], [Cell.num 30],
            [Cell.num 1000]] : List (List Cell)) 1) 0) :=
  ⟨by intro r hr; fin_cases hr <;> rfl, by decide, by rfl, by decide, by decide,
    (c5_age_median_imputation ⟨["age"],
        [[Cell.num 25], [Cell.null], [Cell.num 30], [Cell.num 1000]]⟩ 0
      (by intro r hr; fin_cases hr <;> rfl) (by decide)
      (by intro r hr; fin_cases hr <;> rfl)).2.1 30 (by rfl) (by decide) (by decide)
      1 (by decide)⟩

/-! ### Claim C7 -/

/-- C7: each entity's cleaning entry point is exactly the fixed, non-branching
five-stage composition Unify → Coerce → Normalize → Resolve-Missing →
Collapse-Duplicates.  The reconciliation entity declares no synonym groups,
so its Field Unifier configuration is the empty mapping, under which the
unifier is the identity — making the four calls in
`clean_reconciliation_data` extensionally the same five-stage composition. -/
theorem c7_pipeline_stage_order :
    (∀ df : Df, clean_customers_data df
        = remove_customer_duplicates (handle_customer_missing_values
            (normalize_customer_categoricals (standardize_customer_data_types
              (merge_redundant_fields customerFieldMappings df)))))
  ∧ (∀ df : Df, clean_orders_data df
        = remove_orders_duplicates (handle_orders_missing_values
            (normalize_orders_categoricals (standardize_orders_data_types
              (merge_redundant_fields orderFieldMappings df)))))
  ∧ (∀ df : Df, clean_products_data df
        = remove_products_duplicates (handle_products_missing_values
            (normalize_products_categoricals (standardize_products_data_types
              (merge_redundant_fields productFieldMappings df)))))
  ∧ (∀ df : Df, merge_redundant_fields [] df = df)
  ∧ (∀ df : Df, clean_reconciliation_data df
        = remove_reconciliation_duplicates (handle_reconciliation_missing_values
            (normalize_reconciliation_categoricals (standardize_reconciliation_data_types
              (merge_redundant_fields [] df))))) :=
  ⟨fun _ => rfl, fun _ => rfl, fun _ => rfl, fun _ => rfl, fun _ => rfl⟩

/-! ### Claim C9 -/

/-- Generic store program: `df.copy()` allocates a fresh object at a fresh
address, then every stage reads and rebinds only that fresh object.  This is
the heap-level shape shared by all four cleaning entry points: every helper
mutates (or rebinds) only the `cleaned_df` object handed to it, never the
caller's input object. -/
def runStages (stages : List (Df → Df)) (st : List Df) (a : Nat) : List Df × Nat :=
  let b := st.length
  let st1 := st ++ [st.getD a ⟨[], []⟩]
  (stages.foldl (fun s f => s.set b (f (s.getD b ⟨[], []⟩))) st1, b)

/-- Heap model of `clean_customers_data` called on the object at address `a`. -/
def cleanCustomersProg (st : List Df) (a : Nat) : List Df × Nat :=
  runStages
    [merge_redundant_fields customerFieldMappings, standardize_customer_data_types,
     normalize_customer_categoricals, handle_customer_missing_values,
     remove_customer_duplicates] st a

/-- Heap model of `clean_orders_data`. -/
def cleanOrdersProg (st : List Df) (a : Nat) : List Df × Nat :=
  runStages
    [merge_redundant_fields orderFieldMappings, standardize_orders_data_types,
     normalize_orders_categoricals, handle_orders_missing_values,
     remove_orders_duplicates] st a

/-- Heap model of `clean_products_data`. -/
def cleanProductsProg (st : List Df) (a : Nat) : List Df × Nat :=
  runStages
    [merge_redundant_fields productFieldMappings, standardize_products_data_types,
     normalize_products_categoricals, handle_products_missing_values,
     remove_products_duplicates] st a

/-- Heap model of `clean_reconciliation_data`. -/
def cleanReconciliationProg (st : List Df) (a : Nat) : List Df × Nat :=
  runStages
    [standardize_reconciliation_data_types, normalize_reconciliation_categoricals,
     handle_reconciliation_missing_values, remove_reconciliation_duplicates] st a

theorem getD_set_ne {α : Type} (l : List α) (i j : Nat) (v d : α) (h : i ≠ j) :
    (l.set i v).getD j d = l.getD j d := by
  induction l generalizing i j with
  | nil => rfl
  | cons c t ih =>
    cases i with
    | zero =>
      cases j with
      | zero => exact absurd rfl h
      | succ m => rfl
    | succ n =>
      cases j with
      | zero => rfl
      | succ m => exact ih n m (fun hnm => h (by rw [hnm]))

theorem getD_set_self {α : Type} (l : List α) (i : Nat) (v d : α) (h : i < l.length) :
    (l.set i v).getD i d = v := by
  induction l generalizing i with
  | nil => simp at h
  | cons c t ih =>
    cases i with
    | zero => rfl
    | succ n => exact ih n (Nat.lt_of_succ_lt_succ h)

theorem length_set {α : Type} (l : List α) (i : Nat) (v : α) :
    (l.set i v).length = l.length := List.length_set l i v

theorem getD_append_left {α : Type} (l1 l2 : List α) (a : Nat) (d : α)
    (h : a < l1.length) : (l1 ++ l2).getD a d = l1.getD a d := by
  induction l1 generalizing a with
  | nil => simp at h
  | cons c t ih =>
    cases a with
    | zero => rfl
    | succ n => exact ih n (Nat.lt_of_succ_lt_succ h)

theorem getD_append_self {α : Type} (l : List α) (v d : α) :
    (l ++ [v]).getD l.length d = v := by
  induction l with
  | nil => rfl
  | cons c t ih => exact ih

/-- The stage fold touches only address `b`: lengths are preserved, every
other address keeps its value, and address `b` ends up holding the function
composition of the stages applied to its initial value. -/
theorem stageFold_spec (stages : List (Df → Df)) (st0 : List Df) (b : Nat)
    (hb : b < st0.length) :
    (stages.foldl (fun s f => s.set b (f (s.getD b ⟨[], []⟩))) st0).length = st0.length
  ∧ (∀ a, a ≠ b →
      (stages.foldl (fun s f => s.set b (f (s.getD b ⟨[], []⟩))) st0).getD a ⟨[], []⟩
        = st0.getD a ⟨[], []⟩)
  ∧ (stages.foldl (fun s f => s.set b (f (s.getD b ⟨[], []⟩))) st0).getD b ⟨[], []⟩
      = stages.foldl (fun v f => f v) (st0.getD b ⟨[], []⟩) := by
  induction stages generalizing st0 with
  | nil => exact ⟨rfl, fun a _ => rfl, rfl⟩
  | cons f rest ih =>
    have hb1 : b < (st0.set b (f (st0.getD b ⟨[], []⟩))).length := by
      rw [length_set]; exact hb
    obtain ⟨hlen, hother, hself⟩ := ih (st0.set b (f (st0.getD b ⟨[], []⟩))) hb1
    refine ⟨?_, ?_, ?_⟩
    · show (rest.foldl _ (st0.set b (f (st0.getD b ⟨[], []⟩)))).length = st0.length
      rw [hlen, length_set]
    · intro a ha
      show (rest.foldl _ (st0.set b (f (st0.getD b ⟨[], []⟩)))).getD a ⟨[], []⟩ = _
      rw [hother a ha, getD_set_ne _ _ _ _ _ (fun hba => ha hba.symm)]
    · show (rest.foldl _ (st0.set b (f (st0.getD b ⟨[], []⟩)))).getD b ⟨[], []⟩ = _
      rw [hself, getD_set_self _ _ _ _ hb]
      rfl

/-- What `runStages` guarantees: a strictly larger store, the result address
fresh (distinct from every input address), every input address unchanged,
and the fresh address holding the composed stages applied to the input. -/
theorem runStages_spec (stages : List (Df → Df)) (st : List Df) (a : Nat)
    (h : a < st.length) :
    (runStages stages st a).2 = st.length
  ∧ (runStages stages st a).2 ≠ a
  ∧ (runStages stages st a).1.getD a ⟨[], []⟩ = st.getD a ⟨[], []⟩
  ∧ (runStages stages st a).1.getD (runStages stages st a).2 ⟨[], []⟩
      = stages.foldl (fun v f => f v) (st.getD a ⟨[], []⟩) := by
  have hblen : st.length < (st ++ [st.getD a ⟨[], []⟩]).length := by
    rw [List.length_append]
    simp
  obtain ⟨hlen, hother, hself⟩ := stageFold_spec stages (st ++ [st.getD a ⟨[], []⟩])
    st.length hblen
  refine ⟨rfl, fun hc => absurd (hc ▸ h) (Nat.lt_irrefl _), ?_, ?_⟩
  · have hres := hother a (fun hc => absurd (hc ▸ h) (Nat.lt_irrefl _))
    rw [getD_append_left _ _ _ _ h] at hres
    exact hres
  · have hres := hself
    rw [getD_append_self] at hres
    exact hres

/-- C9: each public cleaning entry point leaves the caller's input object
completely unchanged — the copy allocated by `df.copy()` is the only object
any stage writes — and the returned object is a fresh address distinct from
the input's, holding exactly the pure pipeline value of the input. -/
theorem c9_entry_points_preserve_input (st : List Df) (a : Nat) (h : a < st.length) :
    ((cleanCustomersProg st a).1.getD a ⟨[], []⟩ = st.getD a ⟨[], []⟩
      ∧ (cleanCustomersProg st a).2 ≠ a
      ∧ (cleanCustomersProg st a).1.getD (cleanCustomersProg st a).2 ⟨[], []⟩
          = clean_customers_data (st.getD a ⟨[], []⟩))
  ∧ ((cleanOrdersProg st a).1.getD a ⟨[], []⟩ = st.getD a ⟨[], []⟩
      ∧ (cleanOrdersProg st a).2 ≠ a
      ∧ (cleanOrdersProg st a).1.getD (cleanOrdersProg st a).2 ⟨[], []⟩
          = clean_orders_data (st.getD a ⟨[], []⟩))
  ∧ ((cleanProductsProg st a).1.getD a ⟨[], []⟩ = st.getD a ⟨[], []⟩
      ∧ (cleanProductsProg st a).2 ≠ a
      ∧ (cleanProductsProg st a).1.getD (cleanProductsProg st a).2 ⟨[], []⟩
          = clean_products_data (st.getD a ⟨[], []⟩))
  ∧ ((cleanReconciliationProg st a).1.getD a ⟨[], []⟩ = st.getD a ⟨[], []⟩
      ∧ (cleanReconciliationProg st a).2 ≠ a
      ∧ (cleanReconciliationProg st a).1.getD (cleanReconciliationProg st a).2 ⟨[], []⟩
          = clean_reconciliation_data (st.getD a ⟨[], []⟩)) := by
  obtain ⟨_, hne1, hpres1, hval1⟩ := runStages_spec
    [merge_redundant_fields customerFieldMappings, standardize_customer_data_types,
     normalize_customer_categoricals, handle_customer_missing_values,
     remove_customer_duplicates] st a h
  obtain ⟨_, hne2, hpres2, hval2⟩ := runStages_spec
    [merge_redundant_fields orderFieldMappings, standardize_orders_data_types,
     normalize_orders_categoricals, handle_orders_missing_values,
     remove_orders_duplicates] st a h
  obtain ⟨_, hne3, hpres3, hval3⟩ := runStages_spec
    [merge_redundant_fields productFieldMappings, standardize_products_data_types,
     normalize_products_categoricals, handle_products_missing_values,
     remove_products_duplicates] st a h
  obtain ⟨_, hne4, hpres4, hval4⟩ := runStages_spec
    [standardize_reconciliation_data_types, normalize_reconciliation_categoricals,
     handle_reconciliation_missing_values, remove_reconciliation_duplicates] st a h
  refine ⟨⟨hpres1, hne1, ?_⟩, ⟨hpres2, hne2, ?_⟩, ⟨hpres3, hne3, ?_⟩, ⟨hpres4, hne4, ?_⟩⟩
  · show (runStages
        [merge_redundant_fields customerFieldMappings, standardize_customer_data_types,
         normalize_customer_categoricals, handle_customer_missing_values,
         remove_customer_duplicates] st a).1.getD
      (runStages
        [merge_redundant_fields customerFieldMappings, standardize_customer_data_types,
         normalize_customer_categoricals, handle_customer_missing_values,
         remove_customer_duplicates] st a).2 ⟨[], []⟩
        = clean_customers_data (st.getD a ⟨[], []⟩)
    rw [hval1]
    simp only [List.foldl_cons, List.foldl_nil]
    rfl
  · show (runStages
        [merge_redundant_fields orderFieldMappings, standardize_orders_data_types,
         normalize_orders_categoricals, handle_orders_missing_values,
         remove_orders_duplicates] st a).1.getD
      (runStages
        [merge_redundant_fields orderFieldMappings, standardize_orders_data_types,
         normalize_orders_categoricals, handle_orders_missing_values,
         remove_orders_duplicates] st a).2 ⟨[], []⟩
        = clean_orders_data (st.getD a ⟨[], []⟩)
    rw [hval2]
    simp only [List.foldl_cons, List.foldl_nil]
    rfl
  · show (runStages
        [merge_redundant_fields productFieldMappings, standardize_products_data_types,
         normalize_products_categoricals, handle_products_missing_values,
         remove_products_duplicates] st a).1.getD
      (runStages
        [merge_redundant_fields productFieldMappings, standardize_products_data_types,
         normalize_products_categoricals, handle_products_missing_values,
         remove_products_duplicates] st a).2 ⟨[], []⟩
        = clean_products_data (st.getD a ⟨[], []⟩)
    rw [hval3]
    simp only [List.foldl_cons, List.foldl_nil]
    rfl
  · show (runStages
        [standardize_reconciliation_data_types, normalize_reconciliation_categoricals,
         handle_reconciliation_missing_values, remove_reconciliation_duplicates] st a).1.getD
      (runStages
        [standardize_reconciliation_data_types, normalize_reconciliation_categoricals,
         handle_reconciliation_missing_values, remove_reconciliation_duplicates] st a).2 ⟨[], []⟩
        = clean_reconciliation_data (st.getD a ⟨[], []⟩)
    rw [hval4]
    simp only [List.foldl_cons, List.foldl_nil]
    rfl

/-- C9 witness: a one-object store; the input frame is untouched, the result
lives at the fresh address 1. -/
theorem c9_witness :
    (0 : Nat) < 1
      ∧ (cleanCustomersProg [⟨["email"], [[Cell.str "a"]]⟩] 0).1.getD 0 ⟨[], []⟩
          = ⟨["email"], [[Cell.str "a"]]⟩
      ∧ (cleanCustomersProg [⟨["email"], [[Cell.str "a"]]⟩] 0).2 ≠ 0 :=
  ⟨by decide,
    ((c9_entry_points_preserve_input [⟨["email"], [[Cell.str "a"]]⟩] 0 (by decide)).1.1).trans
      (by decide),
    (c9_entry_points_preserve_input [⟨["email"], [[Cell.str "a"]]⟩] 0 (by decide)).1.2.1⟩

/-! ### Claim C8, counterexample -/

/-- C8, counterexample.  The cleaned output is not a fixed point of the
orders pipeline: synonym columns survive cleaning, so on the frame with
`unit_price = "abc"` and `price = 5` the first run nulls `unit_price` (failed
numeric coercion) while keeping `price`, and the second run's Field Unifier
then fills `unit_price` from `price`, changing the output. -/
theorem c8_counterexample :
    clean_orders_data ⟨["unit_price", "price"], [[Cell.str "abc", Cell.num 5]]⟩
        = ⟨["unit_price", "price"], [[Cell.null, Cell.num 5]]⟩
      ∧ clean_orders_data (clean_orders_data
          ⟨["unit_price", "price"], [[Cell.str "abc", Cell.num 5]]⟩)
        = ⟨["unit_price", "price"], [[Cell.num 5, Cell.num 5]]⟩
      ∧ (⟨["unit_price", "price"], [[Cell.num 5, Cell.num 5]]⟩ : Df)
        ≠ ⟨["unit_price", "price"], [[Cell.null, Cell.num 5]]⟩ :=
  ⟨rfl, rfl, by decide⟩

/-! ### Claim C10 -/

theorem length_rows_mapCol (df : Df) (n : String) (f : Cell → Cell) :
    (mapCol df n f).rows.length = df.rows.length := by
  cases h : colIdx df.cols n with
  | none => rw [mapCol, h]
  | some i =>
    rw [mapCol, h]
    exact List.length_map _ _

theorem isBool_replaceNullVariantCell (c : Cell) (h : isBool c = true) :
    replaceNullVariantCell c = c := by
  cases c with
  | str s => simp [isBool] at h
  | null => rfl
  | num q => rfl
  | bool b => rfl
  | date d => rfl

theorem fillna_of_isBool (v : Cell) (c : Cell) (h : isBool c = true) : fillna v c = c := by
  cases c with
  | null => simp [isBool] at h
  | str s => rfl
  | num q => rfl
  | bool b => rfl
  | date d => rfl

theorem standardize_products_cols (df : Df) :
    (standardize_products_data_types df).cols = df.cols := by
  show (mapCols (mapCol (mapCols df
    ["price", "cost", "weight", "stock_quantity", "reorder_level", "rating"] to_numeric)
    "is_active" coerce_is_active) ["created_date", "last_updated"] to_datetime).cols = df.cols
  rw [mapCols_cols, mapCol_cols, mapCols_cols]

theorem normalize_products_cols (df : Df) :
    (normalize_products_categoricals df).cols = df.cols := by
  show (mapCol (mapCol df "category" (normCat categoryMap "other")) "brand" lower_strip).cols
      = df.cols
  rw [mapCol_cols, mapCol_cols]

theorem rect_standardize_products (df : Df) (hw : Rect df) :
    Rect (standardize_products_data_types df) :=
  rect_mapCols _ _ _ (rect_mapCol _ _ _ (rect_mapCols _ _ _ hw))

theorem rect_normalize_products (df : Df) (hw : Rect df) :
    Rect (normalize_products_categoricals df) :=
  rect_mapCol _ _ _ (rect_mapCol _ _ _ hw)

/-- On any rectangular frame whose `is_active` column is all-boolean, the
products Missing-Value Resolver leaves every `is_active` cell unchanged. -/
theorem handle_products_keeps_bool_col (d2 : Df) (i : Nat) (hw2 : Rect d2)
    (hi2 : colIdx d2.cols "is_active" = some i)
    (hcells : ∀ r ∈ d2.rows, isBool (cellAt r i) = true) :
    ∀ k, k < d2.rows.length →
      cellAt (rowAt (handle_products_missing_values d2).rows k) i
        = cellAt (rowAt d2.rows k) i := by
  intro k hk
  have hk3 : k < (replaceNullVariants d2).rows.length := by
    rw [length_rows_replaceNullVariants]; exact hk
  have hstepA : cellAt (rowAt (replaceNullVariants d2).rows k) i
      = cellAt (rowAt d2.rows k) i := by
    show cellAt (rowAt (d2.rows.map (fun r => r.map replaceNullVariantCell)) k) i = _
    rw [rowAt_map _ _ _ hk, cellAt_map replaceNullVariantCell _ i rfl]
    exact isBool_replaceNullVariantCell _ (hcells _ (rowAt_mem d2.rows k hk))
  have hirepl : colIdx (replaceNullVariants d2).cols "is_active" = some i := hi2
  have hstepB : cellAt (rowAt (mapCol (replaceNullVariants d2) "stock_quantity"
      (fillna (.num 0))).rows k) i = cellAt (rowAt (replaceNullVariants d2).rows k) i := by
    cases hsq : colIdx (replaceNullVariants d2).cols "stock_quantity" with
    | none => rw [mapCol, hsq]
    | some j =>
      rw [mapCol, hsq]
      show cellAt (rowAt ((replaceNullVariants d2).rows.map
        (mapAt j (fillna (.num 0)))) k) i = _
      rw [rowAt_map _ _ _ hk3]
      exact cellAt_mapAt_ne j i _ _
        (colIdx_ne_of_name_ne _ "stock_quantity" "is_active" j i hsq hirepl (by decide))
  have hk4 : k < (mapCol (replaceNullVariants d2) "stock_quantity"
      (fillna (.num 0))).rows.length := by
    rw [length_rows_mapCol]; exact hk3
  have hi4 : colIdx (mapCol (replaceNullVariants d2) "stock_quantity"
      (fillna (.num 0))).cols "is_active" = some i := by
    rw [mapCol_cols]; exact hirepl
  have hw4 : Rect (mapCol (replaceNullVariants d2) "stock_quantity" (fillna (.num 0))) :=
    rect_mapCol _ _ _ (rect_replaceNullVariants _ hw2)
  have hboolcell : isBool (cellAt (rowAt (mapCol (replaceNullVariants d2)
      "stock_quantity" (fillna (.num 0))).rows k) i) = true := by
    rw [hstepB, hstepA]
    exact hcells _ (rowAt_mem d2.rows k hk)
  have hstepC : cellAt (rowAt (mapCol (mapCol (replaceNullVariants d2) "stock_quantity"
      (fillna (.num 0))) "is_active" (fillna (.bool true))).rows k) i
      = cellAt (rowAt (mapCol (replaceNullVariants d2) "stock_quantity"
          (fillna (.num 0))).rows k) i := by
    rw [mapCol, hi4]
    show cellAt (rowAt ((mapCol (replaceNullVariants d2) "stock_quantity"
      (fillna (.num 0))).rows.map (mapAt i (fillna (.bool true)))) k) i = _
    rw [rowAt_map _ _ _ hk4]
    have hlen : i < (rowAt (mapCol (replaceNullVariants d2) "stock_quantity"
        (fillna (.num 0))).rows k).length := by
      rw [hw4 _ (rowAt_mem _ k hk4), mapCol_cols]
      exact colIdx_lt_length _ "is_active" i hirepl
    rw [cellAt_mapAt_lt i _ _ hlen]
    exact fillna_of_isBool _ _ hboolcell
  show cellAt (rowAt (mapCol (mapCol (replaceNullVariants d2) "stock_quantity"
    (fillna (.num 0))) "is_active" (fillna (.bool true))).rows k) i
      = cellAt (rowAt d2.rows k) i
  rw [hstepC, hstepB, hstepA]

/-- C10: for the products entity, whenever `is_active` is present, the Type
Coercer leaves no null in that column (every cell is a boolean), and the
Missing-Value Resolver therefore changes no `is_active` cell: the
`fillna(True)` default never fires, so no output row ever receives
`is_active = True` by missing-value defaulting. -/
theorem c10_is_active_fill_is_noop (df : Df) (hw : Rect df) (i : Nat)
    (hi : colIdx df.cols "is_active" = some i) :
    (∀ r ∈ (standardize_products_data_types df).rows, isBool (cellAt r i) = true)
  ∧ (∀ k, k < (normalize_products_categoricals
        (standardize_products_data_types df)).rows.length →
      cellAt (rowAt (handle_products_missing_values (normalize_products_categoricals
          (standardize_products_data_types df))).rows k) i
        = cellAt (rowAt (normalize_products_categoricals
            (standardize_products_data_types df)).rows k) i) := by
  have hcs1 : colSat (standardize_products_data_types df) "is_active"
      (fun c => isBool c = true) := by
    show colSat (mapCols (mapCol (mapCols df
      ["price", "cost", "weight", "stock_quantity", "reorder_level", "rating"] to_numeric)
      "is_active" coerce_is_active) ["created_date", "last_updated"] to_datetime)
      "is_active" _
    exact colSat_mapCols_ne _ _ _ _ _ (by decide)
      (colSat_mapCol_self_rect _ _ _ _ (rect_mapCols df _ _ hw)
        (fun c => isBool_coerce_is_active c))
  have hi1 : colIdx (standardize_products_data_types df).cols "is_active" = some i := by
    rw [standardize_products_cols]; exact hi
  have hcs2 : colSat (normalize_products_categoricals
      (standardize_products_data_types df)) "is_active" (fun c => isBool c = true) := by
    show colSat (mapCol (mapCol (standardize_products_data_types df) "category"
      (normCat categoryMap "other")) "brand" lower_strip) "is_active" _
    exact colSat_mapCol_ne _ _ _ _ _ (by decide)
      (colSat_mapCol_ne _ _ _ _ _ (by decide) hcs1)
  have hi2 : colIdx (normalize_products_categoricals
      (standardize_products_data_types df)).cols "is_active" = some i := by
    rw [normalize_products_cols, standardize_products_cols]; exact hi
  have hw2 : Rect (normalize_products_categoricals (standardize_products_data_types df)) :=
    rect_normalize_products _ (rect_standardize_products _ hw)
  refine ⟨?_, ?_⟩
  · intro r hr
    exact hcs1 i hi1 r hr
  · exact handle_products_keeps_bool_col _ i hw2 hi2 (fun r hr => hcs2 i hi2 r hr)

/-- C10 witness: a two-row products frame; after coercion `is_active` holds
booleans only, and the resolver leaves both cells unchanged. -/
theorem c10_witness :
    Rect ⟨["is_active"], [[Cell.str "yes"], [Cell.null]]⟩
      ∧ colIdx (["is_active"] : List String) "is_active" = some 0
      ∧ (∀ k, k < (normalize_products_categoricals (standardize_products_data_types
          ⟨["is_active"], [[Cell.str "yes"], [Cell.null]]⟩)).rows.length →
        cellAt (rowAt (handle_products_missing_values (normalize_products_categoricals
            (standardize_products_data_types
              ⟨["is_active"], [[Cell.str "yes"], [Cell.null]]⟩))).rows k) 0
          = cellAt (rowAt (normalize_products_categoricals (standardize_products_data_types
              ⟨["is_active"], [[Cell.str "yes"], [Cell.null]]⟩)).rows k) 0) :=
  ⟨by intro r hr; fin_cases hr <;> rfl, by decide,
    (c10_is_active_fill_is_noop ⟨["is_active"], [[Cell.str "yes"], [Cell.null]]⟩
      (by intro r hr; fin_cases hr <;> rfl) 0 (by decide)).2⟩

/-! ### Claim C8, amended: stability lemmas -/

theorem to_numeric_idem (c : Cell) : to_numeric (to_numeric c) = to_numeric c := by
  cases c with
  | null => rfl
  | num q => rfl
  | bool b => rfl
  | date d => rfl
  | str s => cases h : parseNum s <;> simp [to_numeric, h]

theorem to_datetime_idem (c : Cell) : to_datetime (to_datetime c) = to_datetime c := by
  cases c with
  | null => rfl
  | num q => rfl
  | bool b => rfl
  | date d => rfl
  | str s => cases h : parseDate s <;> simp [to_datetime, h]

theorem to_numeric_fix (c : Cell) (h : to_numeric c = c) : isNumOrNull c = true := by
  cases c with
  | null => rfl
  | num q => rfl
  | bool b => simp [to_numeric] at h
  | date d => simp [to_numeric] at h
  | str s => cases hp : parseNum s <;> simp [to_numeric, hp] at h

theorem to_datetime_fix_repl (c : Cell) (h : to_datetime c = c) :
    replaceNullVariantCell c = c := by
  cases c with
  | null => rfl
  | num q => simp [to_datetime] at h
  | bool b => simp [to_datetime] at h
  | date d => rfl
  | str s => cases hp : parseDate s <;> simp [to_datetime, hp] at h

theorem Pnum_repl (c : Cell) (h : to_numeric c = c) :
    to_numeric (replaceNullVariantCell c) = replaceNullVariantCell c := by
  rw [replaceNullVariantCell_of_numOrNull c (to_numeric_fix c h)]
  exact h

theorem Pdate_repl (c : Cell) (h : to_datetime c = c) :
    to_datetime (replaceNullVariantCell c) = replaceNullVariantCell c := by
  rw [to_datetime_fix_repl c h]
  exact h

theorem replaceNullVariantCell_idem (c : Cell) :
    replaceNullVariantCell (replaceNullVariantCell c) = replaceNullVariantCell c := by
  cases c with
  | null => rfl
  | num q => rfl
  | bool b => rfl
  | date d => rfl
  | str s =>
    by_cases h : s ∈ nullVariants
    · simp [replaceNullVariantCell, h]
    · simp [replaceNullVariantCell, h]

theorem normCat_output_cases (m : List (String × String)) (dflt : String) (c : Cell) :
    normCat m dflt c = .str dflt ∨
      ∃ v, v ∈ m.map Prod.snd ∧ normCat m dflt c = .str v := by
  cases c with
  | str s =>
    cases h : List.lookup (lowerStr s) m with
    | none => left; simp [normCat, h]
    | some v => right; exact ⟨v, lookup_mem_values h, by simp [normCat, h]⟩
  | null => left; rfl
  | num q => left; rfl
  | bool b => left; rfl
  | date d => left; rfl

/-- Once all vocabulary values (and the default) are fixed points of the
normalizer and are not null-variant strings, every normalizer output is
stable under a second normalization and under null-variant replacement. -/
theorem normCat_stable (m : List (String × String)) (dflt : String)
    (hstab : ∀ v ∈ m.map Prod.snd,
      normCat m dflt (.str v) = .str v ∧ replaceNullVariantCell (.str v) = .str v)
    (hdstab : normCat m dflt (.str dflt) = .str dflt
      ∧ replaceNullVariantCell (.str dflt) = .str dflt) (c : Cell) :
    normCat m dflt (normCat m dflt c) = normCat m dflt c
      ∧ replaceNullVariantCell (normCat m dflt c) = normCat m dflt c := by
  rcases normCat_output_cases m dflt c with h | ⟨v, hv, h⟩
  · rw [h]; exact hdstab
  · rw [h]; exact hstab v hv

theorem mapCol_eq_self (df : Df) (n : String) (f : Cell → Cell)
    (h : ∀ i, colIdx df.cols n = some i → ∀ r ∈ df.rows, f (cellAt r i) = cellAt r i) :
    mapCol df n f = df := by
  cases hc : colIdx df.cols n with
  | none => rw [mapCol, hc]
  | some i =>
    rw [mapCol, hc]
    cases df with
    | mk cols rows =>
      simp only [Df.mk.injEq, true_and]
      exact map_eq_self_of rows _ (fun r hr => mapAt_id i f r (h i hc r hr))

theorem mapCols_eq_self (df : Df) (fields : List String) (f : Cell → Cell)
    (h : ∀ n ∈ fields, ∀ i, colIdx df.cols n = some i →
      ∀ r ∈ df.rows, f (cellAt r i) = cellAt r i) :
    mapCols df fields f = df := by
  induction fields with
  | nil => rfl
  | cons fd rest ih =>
    show mapCols (mapCol df fd f) rest f = df
    rw [mapCol_eq_self df fd f (h fd (List.mem_cons_self _ _))]
    exact ih (fun n hn => h n (List.mem_cons_of_mem _ hn))

theorem replaceNullVariants_eq_self (d : Df)
    (h : ∀ r ∈ d.rows, ∀ c ∈ r, replaceNullVariantCell c = c) :
    replaceNullVariants d = d := by
  cases d with
  | mk cols rows =>
    simp only [replaceNullVariants, Df.mk.injEq, true_and]
    exact map_eq_self_of rows _ (fun r hr => map_eq_self_of r _ (h r hr))

theorem allCells_replace (d : Df) :
    ∀ r ∈ (replaceNullVariants d).rows, ∀ c ∈ r, replaceNullVariantCell c = c := by
  intro r hr c hc
  simp only [replaceNullVariants, List.mem_map] at hr
  obtain ⟨r0, hr0, rfl⟩ := hr
  simp only [List.mem_map] at hc
  obtain ⟨c0, hc0, rfl⟩ := hc
  exact replaceNullVariantCell_idem c0

/-- A frame whose declared reconciliation columns are stage-stable and whose
cells are clean of null variants and exact duplicates is a fixed point of
the reconciliation pipeline. -/
theorem recon_pipeline_fix (Z : Df)
    (hnum : ∀ n ∈ (["amount_paid", "quantity_ordered", "unit_cost", "total_value",
        "discount_applied", "shipping_fee", "tax_amount"] : List String),
      colSat Z n (fun c => to_numeric c = c))
    (hdate : ∀ n ∈ (["transaction_date", "last_modified_timestamp"] : List String),
      colSat Z n (fun c => to_datetime c = c))
    (hpay : colSat Z "payment_status"
      (fun c => normCat paymentStatusMap "pending" c = c))
    (hdeliv : colSat Z "delivery_status"
      (fun c => normCat deliveryStatusMap "pending" c = c))
    (hall : ∀ r ∈ Z.rows, ∀ c ∈ r, replaceNullVariantCell c = c)
    (hnodup : Z.rows.Nodup) :
    clean_reconciliation_data Z = Z := by
  have h1 : standardize_reconciliation_data_types Z = Z := by
    show mapCols (mapCols Z ["amount_paid", "quantity_ordered", "unit_cost", "total_value",
      "discount_applied", "shipping_fee", "tax_amount"] to_numeric)
      ["transaction_date", "last_modified_timestamp"] to_datetime = Z
    rw [mapCols_eq_self Z _ to_numeric (fun n hn i hi r hr => hnum n hn i hi r hr)]
    exact mapCols_eq_self Z _ to_datetime (fun n hn i hi r hr => hdate n hn i hi r hr)
  have h2 : normalize_reconciliation_categoricals Z = Z := by
    show mapCol (mapCol Z "payment_status" (normCat paymentStatusMap "pending"))
      "delivery_status" (normCat deliveryStatusMap "pending") = Z
    rw [mapCol_eq_self Z _ _ (fun i hi r hr => hpay i hi r hr)]
    exact mapCol_eq_self Z _ _ (fun i hi r hr => hdeliv i hi r hr)
  have h3 : handle_reconciliation_missing_values Z = Z :=
    replaceNullVariants_eq_self Z hall
  have h4 : remove_reconciliation_duplicates Z = Z := by
    show { Z with rows := dedupFirst [] Z.rows } = Z
    cases Z with
    | mk cols rows =>
      simp only [Df.mk.injEq, true_and]
      exact dedupFirst_eq_self [] rows hnodup (fun x _ => List.not_mem_nil x)
  show remove_reconciliation_duplicates (handle_reconciliation_missing_values
    (normalize_reconciliation_categoricals (standardize_reconciliation_data_types Z))) = Z
  rw [h1, h2, h3, h4]

theorem rect_standardize_reconciliation (df : Df) (hw : Rect df) :
    Rect (standardize_reconciliation_data_types df) := by
  show Rect (mapCols (mapCols df ["amount_paid", "quantity_ordered", "unit_cost",
    "total_value", "discount_applied", "shipping_fee", "tax_amount"] to_numeric)
    ["transaction_date", "last_modified_timestamp"] to_datetime)
  exact rect_mapCols _ _ _ (rect_mapCols _ _ _ hw)

theorem recon_coerce_numeric_stable (df : Df) :
    ∀ n ∈ (["amount_paid", "quantity_ordered", "unit_cost", "total_value",
      "discount_applied", "shipping_fee", "tax_amount"] : List String),
      colSat (standardize_reconciliation_data_types df) n (fun c => to_numeric c = c) := by
  intro n hn
  show colSat (mapCols (mapCols df ["amount_paid", "quantity_ordered", "unit_cost",
    "total_value", "discount_applied", "shipping_fee", "tax_amount"] to_numeric)
    ["transaction_date", "last_modified_timestamp"] to_datetime) n _
  refine colSat_mapCols_ne _ _ _ _ _ ?_
    (colSat_mapCols_self _ _ _ _ _ hn (fun c => to_numeric_idem c) rfl)
  fin_cases hn <;> decide

theorem recon_coerce_date_stable (df : Df) :
    ∀ n ∈ (["transaction_date", "last_modified_timestamp"] : List String),
      colSat (standardize_reconciliation_data_types df) n (fun c => to_datetime c = c) := by
  intro n hn
  show colSat (mapCols (mapCols df ["amount_paid", "quantity_ordered", "unit_cost",
    "total_value", "discount_applied", "shipping_fee", "tax_amount"] to_numeric)
    ["transaction_date", "last_modified_timestamp"] to_datetime) n _
  exact colSat_mapCols_self _ _ _ _ _ hn (fun c => to_datetime_idem c) rfl

theorem recon_norm_numeric_stable (df : Df) :
    ∀ n ∈ (["amount_paid", "quantity_ordered", "unit_cost", "total_value",
      "discount_applied", "shipping_fee", "tax_amount"] : List String),
      colSat (normalize_reconciliation_categoricals
        (standardize_reconciliation_data_types df)) n (fun c => to_numeric c = c) := by
  intro n hn
  show colSat (mapCol (mapCol (standardize_reconciliation_data_types df)
    "payment_status" (normCat paymentStatusMap "pending"))
    "delivery_status" (normCat deliveryStatusMap "pending")) n _
  refine colSat_mapCol_ne _ _ _ _ _ ?_ (colSat_mapCol_ne _ _ _ _ _ ?_
    (recon_coerce_numeric_stable df n hn))
  · fin_cases hn <;> decide
  · fin_cases hn <;> decide

theorem recon_norm_date_stable (df : Df) :
    ∀ n ∈ (["transaction_date", "last_modified_timestamp"] : List String),
      colSat (normalize_reconciliation_categoricals
        (standardize_reconciliation_data_types df)) n (fun c => to_datetime c = c) := by
  intro n hn
  show colSat (mapCol (mapCol (standardize_reconciliation_data_types df)
    "payment_status" (normCat paymentStatusMap "pending"))
    "delivery_status" (normCat deliveryStatusMap "pending")) n _
  refine colSat_mapCol_ne _ _ _ _ _ ?_ (colSat_mapCol_ne _ _ _ _ _ ?_
    (recon_coerce_date_stable df n hn))
  · fin_cases hn <;> decide
  · fin_cases hn <;> decide

theorem recon_norm_pay_stable (df : Df) (hw : Rect df) :
    colSat (normalize_reconciliation_categoricals
      (standardize_reconciliation_data_types df)) "payment_status"
      (fun c => normCat paymentStatusMap "pending" c = c
        ∧ replaceNullVariantCell c = c) := by
  show colSat (mapCol (mapCol (standardize_reconciliation_data_types df)
    "payment_status" (normCat paymentStatusMap "pending"))
    "delivery_status" (normCat deliveryStatusMap "pending")) "payment_status" _
  exact colSat_mapCol_ne _ _ _ _ _ (by decide)
    (colSat_mapCol_self_rect _ _ _ _ (rect_standardize_reconciliation df hw)
      (normCat_stable paymentStatusMap "pending" (by decide) (by decide)))

theorem recon_norm_deliv_stable (df : Df) (hw : Rect df) :
    colSat (normalize_reconciliation_categoricals
      (standardize_reconciliation_data_types df)) "delivery_status"
      (fun c => normCat deliveryStatusMap "pending" c = c
        ∧ replaceNullVariantCell c = c) := by
  show colSat (mapCol (mapCol (standardize_reconciliation_data_types df)
    "payment_status" (normCat paymentStatusMap "pending"))
    "delivery_status" (normCat deliveryStatusMap "pending")) "delivery_status" _
  exact colSat_mapCol_self_rect _ _ _ _
    (rect_mapCol _ _ _ (rect_standardize_reconciliation df hw))
    (normCat_stable deliveryStatusMap "pending" (by decide) (by decide))

theorem recon_missing_numeric_stable (df : Df) :
    ∀ n ∈ (["amount_paid", "quantity_ordered", "unit_cost", "total_value",
      "discount_applied", "shipping_fee", "tax_amount"] : List String),
      colSat (replaceNullVariants (normalize_reconciliation_categoricals
        (standardize_reconciliation_data_types df))) n (fun c => to_numeric c = c) :=
  fun n hn => colSat_replace_pres _ _ _ (fun c hc => Pnum_repl c hc)
    (recon_norm_numeric_stable df n hn)

theorem recon_missing_date_stable (df : Df) :
    ∀ n ∈ (["transaction_date", "last_modified_timestamp"] : List String),
      colSat (replaceNullVariants (normalize_reconciliation_categoricals
        (standardize_reconciliation_data_types df))) n (fun c => to_datetime c = c) :=
  fun n hn => colSat_replace_pres _ _ _ (fun c hc => Pdate_repl c hc)
    (recon_norm_date_stable df n hn)

theorem recon_missing_pay_stable (df : Df) (hw : Rect df) :
    colSat (replaceNullVariants (normalize_reconciliation_categoricals
      (standardize_reconciliation_data_types df))) "payment_status"
      (fun c => normCat paymentStatusMap "pending" c = c
        ∧ replaceNullVariantCell c = c) :=
  colSat_replace_pres _ _ _ (fun c hc => by rw [hc.2]; exact hc)
    (recon_norm_pay_stable df hw)

theorem recon_missing_deliv_stable (df : Df) (hw : Rect df) :
    colSat (replaceNullVariants (normalize_reconciliation_categoricals
      (standardize_reconciliation_data_types df))) "delivery_status"
      (fun c => normCat deliveryStatusMap "pending" c = c
        ∧ replaceNullVariantCell c = c) :=
  colSat_replace_pres _ _ _ (fun c hc => by rw [hc.2]; exact hc)
    (recon_norm_deliv_stable df hw)

theorem handle_recon_eq_replace (X : Df) :
    handle_reconciliation_missing_values X = replaceNullVariants X := rfl

theorem clean_recon_unfold (df : Df) :
    clean_reconciliation_data df
      = remove_reconciliation_duplicates (handle_reconciliation_missing_values
          (normalize_reconciliation_categoricals
            (standardize_reconciliation_data_types df))) := rfl

theorem remove_recon_rows (X : Df) :
    (remove_reconciliation_duplicates X).rows = dedupFirst [] X.rows := rfl

theorem remove_recon_cols (X : Df) :
    (remove_reconciliation_duplicates X).cols = X.cols := rfl

theorem recon_clean_rows (df : Df) :
    (clean_reconciliation_data df).rows
      = dedupFirst [] (replaceNullVariants (normalize_reconciliation_categoricals
          (standardize_reconciliation_data_types df))).rows := by
  rw [clean_recon_unfold, remove_recon_rows, handle_recon_eq_replace]

theorem recon_clean_cols (df : Df) :
    (clean_reconciliation_data df).cols
      = (replaceNullVariants (normalize_reconciliation_categoricals
          (standardize_reconciliation_data_types df))).cols := by
  rw [clean_recon_unfold, remove_recon_cols, handle_recon_eq_replace]

/-- C8 as amended: the cleaned output is a fixed point of the reconciliation
pipeline — running `clean_reconciliation_data` a second time returns its
input unchanged.  For the customers, orders and products pipelines the claim
fails (see the counterexample): synonym columns are retained by the Field
Unifier, so a second run can refill a canonical cell that the first run's
Type Coercer turned to null. -/
theorem c8_reconciliation_idempotent (df : Df) (hw : Rect df) :
    clean_reconciliation_data (clean_reconciliation_data df)
      = clean_reconciliation_data df := by
  have hsub : ∀ r ∈ (clean_reconciliation_data df).rows,
      r ∈ (replaceNullVariants (normalize_reconciliation_categoricals
        (standardize_reconciliation_data_types df))).rows := by
    intro r hr
    rw [recon_clean_rows df] at hr
    exact (dedupFirst_sublist [] _).subset hr
  refine recon_pipeline_fix (clean_reconciliation_data df) ?_ ?_ ?_ ?_ ?_ ?_
  · intro n hn i hi r hr
    rw [recon_clean_cols df] at hi
    exact recon_missing_numeric_stable df n hn i hi r (hsub r hr)
  · intro n hn i hi r hr
    rw [recon_clean_cols df] at hi
    exact recon_missing_date_stable df n hn i hi r (hsub r hr)
  · intro i hi r hr
    rw [recon_clean_cols df] at hi
    exact (recon_missing_pay_stable df hw i hi r (hsub r hr)).1
  · intro i hi r hr
    rw [recon_clean_cols df] at hi
    exact (recon_missing_deliv_stable df hw i hi r (hsub r hr)).1
  · intro r hr c hc
    exact allCells_replace _ r (hsub r hr) c hc
  · rw [recon_clean_rows df]
    exact (dedupFirst_spec [] _).2

/-- C8 witness: the fixed-point theorem applied to a small reconciliation
frame with a synonym-free messy column. -/
theorem c8_witness :
    Rect ⟨["payment_status"], [[Cell.str "COMPLETE"], [Cell.null]]⟩
      ∧ clean_reconciliation_data (clean_reconciliation_data
          ⟨["payment_status"], [[Cell.str "COMPLETE"], [Cell.null]]⟩)
        = clean_reconciliation_data
            ⟨["payment_status"], [[Cell.str "COMPLETE"], [Cell.null]]⟩ :=
  ⟨by intro r hr; fin_cases hr <;> rfl,
    c8_reconciliation_idempotent ⟨["payment_status"], [[Cell.str "COMPLETE"], [Cell.null]]⟩
      (by intro r hr; fin_cases hr <;> rfl)⟩

end ETL
